import Mathlib

/-!
# Verification of the workbench_ros robot and joint modules

Shallow embedding of `freecad/workbench_ros/robot.py` and
`freecad/workbench_ros/joint.py`.

FreeCAD document objects are embedded as plain records.  Python object
identity (the `is` operator) is the document-assigned `id` field; the host
document (FreeCAD) is the unique allocator of these identities.  Fallible
Python code (unbound names, missing attributes) is embedded as functions
returning `Except PyErr`.  External host services that the repository calls
but does not define (`doc.addObject`, `doc.removeObject`, `get_links`,
`parent.getSubObject`, `valid_urdf_name`, `urdf_origin_from_placement`) are
modelled from the spec where indicated.
-/

/-- Python exceptions raised by the embedded code.  `nameError` models a
reference to an unbound global (such as the unimported `warn` in
`robot.py`); `attributeError` models reading a missing instance
attribute. -/
inductive PyErr where
  | nameError : String → PyErr
  | attributeError : String → PyErr
deriving DecidableEq

/-- An `fc.Placement`: a rigid transform, embedded as a translation and a
roll/pitch/yaw rotation with rational coordinates. -/
structure Placement where
  x : ℚ
  y : ℚ
  z : ℚ
  roll : ℚ
  pitch : ℚ
  yaw : ℚ
deriving DecidableEq

/-- The value of the `fc.Placement()` constructor call: the identity
transform. -/
def Placement.identity : Placement := ⟨0, 0, 0, 0, 0, 0⟩

/-- An externally owned source geometric object, as seen by
`_add_links_lod`: its document identity, its `Name`, and `o.Parents`, the
list of (structural parent identity, sub-path) pairs returned by the host's
structural-parent query. -/
structure SourceObj where
  id : Nat
  name : String
  parents : List (Nat × String)
deriving DecidableEq

/-- An `App::Link` proxy object created by `_add_links_lod`: document
identity, `Name` and `Label` (both set from the generated
`{lod}_{link.Name}000` string), the `LinkedObject` binding established by
`setLink` (identity of the source object), and the `LinkPlacement`. -/
structure LinkProxyObj where
  id : Nat
  name : String
  label : String
  linkedObject : Option Nat
  linkPlacement : Placement
deriving DecidableEq

/-- A `Ros::Link` member of the robot's group: its document identity and
`Name`/`Label`, its `Group` (the identities of the proxy objects it owns)
and its three source sequences `Real`, `Visual` and `Collision`. -/
structure RosLink where
  id : Nat
  name : String
  label : String
  group : List Nat
  real : List SourceObj
  visual : List SourceObj
  collision : List SourceObj
deriving DecidableEq

/-- The document state touched by `Robot.reset_group`.

Modelled from the spec: `get_links` (defined in the repository's `utils`
module, not under `src/`) filters `robot.Group` down to its `Ros::Link`
members; the state carries that partition directly, `links` being the
Link-typed members and `rest` the identities of the remaining members,
which reconciliation never touches.  `nextId` is the host allocator for
fresh object identities. -/
structure Doc where
  proxies : List LinkProxyObj
  links : List RosLink
  rest : List Nat
  nextId : Nat
deriving DecidableEq

/-- Resolve a document identity to the proxy object carrying it. -/
def Doc.findProxy (doc : Doc) (pid : Nat) : Option LinkProxyObj :=
  doc.proxies.find? (fun p => p.id == pid)

/-- Resolve a document identity to the `Ros::Link` carrying it. -/
def Doc.getLink (doc : Doc) (lid : Nat) : Option RosLink :=
  doc.links.find? (fun l => l.id == lid)

/-- Write back a mutated `Ros::Link` (the Python code mutates the link
object in place through a live reference; the embedding stores the updated
record at the link's identity). -/
def Doc.setLink (doc : Doc) (l' : RosLink) : Doc :=
  { doc with links := doc.links.map (fun l => if l.id == l'.id then l' else l) }

/-- Does the proxy with identity `pid` link (via `LinkedObject`) to the
source object with identity `oid`?  This is the Python test
`linked_lod.LinkedObject is o`. -/
def Doc.linksTo (doc : Doc) (pid oid : Nat) : Bool :=
  match doc.findProxy pid with
  | some p => p.linkedObject == some oid
  | none => false

/-- Modelled from the spec: "Entity deletion by name within an owning
collection" (§6).  `reset_group` calls `self.robot.Document.removeObject(o.Name)`;
the host document resolves the name of a document object to that unique
object, so deletion is modelled by the object's identity.  The host also
detaches the deleted object from every group that contains it. -/
def Doc.removeObject (doc : Doc) (pid : Nat) : Doc :=
  { doc with
    proxies := doc.proxies.filter (fun p => p.id != pid),
    links := doc.links.map (fun l => { l with group := l.group.filter (fun g => g != pid) }) }

/-- The `Robot` proxy state: the document it manages, the three LOD flags
(`none` models the property not yet existing, the `hasattr` guard in
`reset_group`), and the two persisted attributes `type` and
`previous_link_count`. -/
structure Robot where
  doc : Doc
  showReal : Option Bool
  showVisual : Option Bool
  showCollision : Option Bool
  type : String
  previous_link_count : Nat
deriving DecidableEq

/-- The body of the loop in `_existing_link` (robot.py:22-24): scan
`link.Group` in order and return the first member whose `LinkedObject` is
`o` (identity comparison).  A group identity that does not resolve to a
proxy cannot match (the Python loop only ever sees live proxy objects). -/
def existing_link_go (doc : Doc) (o : SourceObj) : List Nat → Option Nat
  | [] => none
  | gid :: rest =>
    match doc.findProxy gid with
    | some p => if p.linkedObject == some o.id then some gid else existing_link_go doc o rest
    | none => existing_link_go doc o rest

/-- The function `_existing_link(link, o)` of robot.py:14-24: return the
link to `o` if it exists in `link.Group`, else `None`. -/
def existing_link (doc : Doc) (link : RosLink) (o : SourceObj) : Option Nat :=
  existing_link_go doc o link.group

/-- The document after `doc.addObject` registered a new proxy: the record
is inserted and the host identity allocator advances. -/
def docWithNew (doc : Doc) (p : LinkProxyObj) : Doc :=
  { doc with proxies := doc.proxies ++ [p], nextId := doc.nextId + 1 }

/-- The link after `link.addObject(lod_link)` appended the new proxy to its
group. -/
def linkWithNew (link : RosLink) (p : LinkProxyObj) : RosLink :=
  { link with group := link.group ++ [p.id] }

/-- The function `_add_links_lod(link, objects, lod)` of robot.py:27-67.

`env` is the host's sub-object placement query
(`parent.getSubObject(subname, retType=3)`), modelled from the spec as an
opaque map from (parent identity, sub-path) to a transform.

For each object `o` in order: if `_existing_link` finds an existing proxy
it is reused; otherwise a fresh `App::Link` named `f'{lod}_{link.Name}000'`
is created.  The Python then evaluates `warn(...)` whenever
`len(o.Parents) != 1`; `warn` is not imported in robot.py, so that call
raises `NameError` (the partially created host object is unobservable in
the error result, so the embedding checks before inserting the record).
With exactly one parent the placement is the parent's sub-object placement;
the identity-placement branch for zero parents is unreachable because the
`warn` lookup raises first.  The new proxy is bound to `o` with `setLink`
and appended to `link.Group` (`link.addObject`); `adjustRelativeLinks` has
no observable effect on the embedded state.  Returns the updated document,
the updated link and the full list of linked objects (existing + created)
in input order.

`newProxy` is the proxy record built by robot.py:47-62 for one source
object: a fresh host identity for `doc.addObject` (robot.py:48), the
generated name `f'{lod}_{link.Name}000'` as both `Name` and `Label`
(robot.py:47-49), the `setLink` binding (robot.py:62) and the
`LinkPlacement` of robot.py:57-61 (identity when `o.Parents` is empty, the
first parent's sub-object placement otherwise). -/
def newProxy (env : Nat → String → Placement) (doc : Doc) (link : RosLink)
    (o : SourceObj) (lod : String) : LinkProxyObj :=
  { id := doc.nextId,
    name := lod ++ "_" ++ link.name ++ "000",
    label := lod ++ "_" ++ link.name ++ "000",
    linkedObject := some o.id,
    linkPlacement :=
      match o.parents with
      | [] => Placement.identity
      | (par, sub) :: _ => env par sub }

def add_links_lod (env : Nat → String → Placement) (doc : Doc) (link : RosLink)
    (objects : List SourceObj) (lod : String) : Except PyErr (Doc × RosLink × List Nat) :=
  match objects with
  | [] => .ok (doc, link, [])
  | o :: rest =>
    match existing_link doc link o with
    | some gid =>
      match add_links_lod env doc link rest lod with
      | .ok (d, l, ids) => .ok (d, l, gid :: ids)
      | .error e => .error e
    | none =>
      if o.parents.length != 1 then
        .error (.nameError "warn")
      else
        let p : LinkProxyObj := newProxy env doc link o lod
        match add_links_lod env (docWithNew doc p) (linkWithNew link p) rest lod with
        | .ok (d, l, ids) => .ok (d, l, p.id :: ids)
        | .error e => .error e

/-- One `if self.robot.ShowX: for l in links: all_linked_objects +=
_add_links_lod(l, l.X, 'x')` loop of reset_group, iterating the snapshot of
link identities against the evolving document.  The `none` branch of
`getLink` is unreachable in well-formed states: the Python loop iterates
live link references. -/
def run_lod_pass (env : Nat → String → Placement) (doc : Doc) (lids : List Nat)
    (pick : RosLink → List SourceObj) (lod : String) : Except PyErr (Doc × List Nat) :=
  match lids with
  | [] => .ok (doc, [])
  | lid :: rest =>
    match doc.getLink lid with
    | none => run_lod_pass env doc rest pick lod
    | some l =>
      match add_links_lod env doc l (pick l) lod with
      | .error e => .error e
      | .ok (d, l', ids) =>
        match run_lod_pass env (d.setLink l') rest pick lod with
        | .error e => .error e
        | .ok (d2, ids2) => .ok (d2, ids ++ ids2)

/-- A guarded LOD pass: run the pass only when the corresponding Show flag
is set, as in reset_group's `if self.robot.ShowReal: ...`. -/
def lod_pass_if (b : Bool) (env : Nat → String → Placement) (doc : Doc) (lids : List Nat)
    (pick : RosLink → List SourceObj) (lod : String) : Except PyErr (Doc × List Nat) :=
  if b then run_lod_pass env doc lids pick lod else .ok (doc, [])

/-- The method `Robot.reset_group` of robot.py:137-173.

If any of the three Show flags does not exist yet (`hasattr` guard,
robot.py:140-143) the call is a no-op.  Otherwise it snapshots the ROS
links and the list of currently linked objects, runs the three guarded LOD
passes accumulating `all_linked_objects`, and removes every object of the
"before" snapshot that the passes did not return
(`set(current_linked_objects) - set(all_linked_objects)`, set difference by
identity, then `removeObject` for each).  The unused Python local `rest`
(robot.py:146) has no effect and is not bound. -/
def Robot.reset_group (env : Nat → String → Placement) (r : Robot) : Except PyErr Robot :=
  match r.showReal, r.showVisual, r.showCollision with
  | some sr, some sv, some sc =>
    let doc0 := r.doc
    let lids := doc0.links.map (fun l => l.id)
    let current := doc0.links.flatMap (fun l => l.group)
    match lod_pass_if sr env doc0 lids (fun l => l.real) "real" with
    | .error e => .error e
    | .ok (d1, a1) =>
      match lod_pass_if sv env d1 lids (fun l => l.visual) "visual" with
      | .error e => .error e
      | .ok (d2, a2) =>
        match lod_pass_if sc env d2 lids (fun l => l.collision) "collision" with
        | .error e => .error e
        | .ok (d3, a3) =>
          let allIds := a1 ++ a2 ++ a3
          let toRemove := current.filter (fun pid => !(allIds.contains pid))
          .ok { r with doc := toRemove.foldl (fun d pid => d.removeObject pid) d3 }
  | _, _, _ => .ok r

/-- The method `Robot.onChanged` of robot.py:118-135.  The guard that would
treat `'Group'` specially to avoid recursion (robot.py:124-130) is
commented out in the source; the active code calls `reset_group`
unconditionally whenever `prop` is one of `'Group'`, `'ShowReal'`,
`'ShowVisual'`, `'ShowCollision'`. -/
def Robot.onChanged (env : Nat → String → Placement) (r : Robot) (prop : String) :
    Except PyErr Robot :=
  if prop ∈ ["Group", "ShowReal", "ShowVisual", "ShowCollision"] then
    Robot.reset_group env r
  else
    .ok r

/-- The method `Robot.__getstate__` of robot.py:185-186: the persisted
state is the pair of `type` and `previous_link_count`. -/
def Robot.getstate (r : Robot) : String × Nat :=
  (r.type, r.previous_link_count)

/-- The method `Robot.__setstate__` of robot.py:188-190: `if state:` — a
falsy state (`None`) leaves the proxy unchanged; otherwise the pair is
unpacked into `type` and `previous_link_count`, and nothing else is
restored. -/
def Robot.setstate (r : Robot) (state : Option (String × Nat)) : Robot :=
  match state with
  | none => r
  | some (t, c) => { r with type := t, previous_link_count := c }

/-!
## The Joint class (joint.py)
-/

/-- An XML element, as built by `xml.etree.ElementTree`: a tag, attributes
in insertion order, and child elements in append order. -/
inductive Xml where
  | elem : String → List (String × String) → List Xml → Xml

/-- Set an attribute on an element (`joint_xml.attrib[k] = v`). -/
def Xml.setAttr (x : Xml) (k v : String) : Xml :=
  match x with
  | .elem t attrs ch => .elem t (attrs ++ [(k, v)]) ch

/-- Append a child element (`joint_xml.append(c)`). -/
def Xml.appendChild (x : Xml) (c : Xml) : Xml :=
  match x with
  | .elem t attrs ch => .elem t attrs (ch ++ [c])

/-- The document object wrapped by a `Joint` proxy, with the properties
declared in `Joint.init_properties`: `Name`, `Label`, `Type` (the selected
enumeration string), `Parent` and `Child` (`App::PropertyLink` — identity
of the linked object, or unset), and `Origin`. -/
structure JointObj where
  name : String
  label : String
  type : String
  parent : Option Nat
  child : Option Nat
  origin : Placement
deriving DecidableEq

/-- The `Ros::Joint` proxy of joint.py.  `__init__` and
`onDocumentRestored` bind only the attribute `joint`; no other instance
attribute is ever defined. -/
structure Joint where
  joint : JointObj
deriving DecidableEq

/-- The class attribute `Joint.type_enum` of joint.py:20; the source
comment fixes the order: "The names can be changed but not the order.
Names can be added." -/
def Joint.type_enum : List String := ["fixed", "revolute", "prismatic"]

/-- Python attribute lookup for `self.name` on a `Joint` proxy: the
instance defines only `joint`, so the lookup raises `AttributeError`. -/
def Joint.getattr_name (_ : Joint) : Except PyErr String :=
  .error (.attributeError "name")

/-- Python attribute lookup for `self.origin` on a `Joint` proxy: the
instance defines only `joint`, so the lookup raises `AttributeError`. -/
def Joint.getattr_origin (_ : Joint) : Except PyErr Placement :=
  .error (.attributeError "origin")

/-- Modelled from the spec: `valid_urdf_name` lives in the repository's
`utils` module, which is not under `src/`; the spec (§4.4) leaves the exact
sanitization policy to the external "name sanitizer" collaborator.  All
names appearing in the claims are already in the restricted identifier
charset, so the sanitizer is modelled as the identity map. -/
def valid_urdf_name (s : String) : String := s

/-- Render a rational placement coordinate for the URDF wire format. -/
def ratStr (q : ℚ) : String :=
  if q.den = 1 then toString q.num else toString q.num ++ "/" ++ toString q.den

/-- Modelled from the spec: `urdf_origin_from_placement` lives in the
repository's `export_urdf` module, which is not under `src/`; per §4.4 it
serializes a transform into an `origin` element with `xyz` and `rpy`
attributes. -/
def urdf_origin_from_placement (p : Placement) : Xml :=
  .elem "origin"
    [("xyz", ratStr p.x ++ " " ++ ratStr p.y ++ " " ++ ratStr p.z),
     ("rpy", ratStr p.roll ++ " " ++ ratStr p.pitch ++ " " ++ ratStr p.yaw)] []

/-- The method `Joint.export_urdf` of joint.py:58-66, line by line.

Line 60 evaluates `self.name`, which raises `AttributeError` (the instance
defines only `joint`); the remaining lines are therefore dead but are
embedded as written.  The strings of lines 62-63 are ordinary strings, not
f-strings — they lack the `f` prefix — so `et.fromstring` receives the
brace expressions as literal attribute text. -/
def Joint.export_urdf (self : Joint) : Except PyErr Xml := do
  let j0 := Xml.elem "joint" [] []
  let nm ← self.getattr_name
  let j1 := j0.setAttr "name" (valid_urdf_name nm)
  let j2 := j1.setAttr "type" self.joint.type
  let j3 := j2.appendChild
    (Xml.elem "parent" [("joint", "\x7bvalid_urdf_name(self.parent.Label)\x7d")] [])
  let j4 := j3.appendChild
    (Xml.elem "child" [("joint", "\x7bvalid_urdf_name(self.child.Label)\x7d")] [])
  let org ← self.getattr_origin
  let j5 := j4.appendChild (urdf_origin_from_placement org)
  let j6 := j5.appendChild (Xml.elem "axis" [("xyz", "0 0 1")] [])
  return j6

/-!
## Concrete fixtures
-/

/-- A constant sub-object placement environment used for concrete
evaluations. -/
def envId : Nat → String → Placement := fun _ _ => Placement.identity

/-- The Link "base" of the export scenario. -/
def base_link : RosLink :=
  { id := 1, name := "base", label := "base", group := [],
    real := [], visual := [], collision := [] }

/-- The Link "arm" of the export scenario. -/
def arm_link : RosLink :=
  { id := 2, name := "arm", label := "arm", group := [],
    real := [], visual := [], collision := [] }

/-- The Joint "shoulder" of the export scenario: type revolute, Parent the
"base" link, Child the "arm" link, Origin the translation (0, 0, 0.5) with
identity rotation. -/
def shoulder_joint : Joint :=
  { joint := { name := "shoulder", label := "shoulder", type := "revolute",
               parent := some base_link.id, child := some arm_link.id,
               origin := { x := 0, y := 0, z := 1/2, roll := 0, pitch := 0, yaw := 0 } } }

/-- A joint whose Parent and Child references are both unset. -/
def dangling_joint : Joint :=
  { joint := { name := "floating", label := "floating", type := "fixed",
               parent := none, child := none, origin := Placement.identity } }

/-!
## Claim theorems: joint export, enumeration, persistence
-/

/-- C1 (code bug): for the "shoulder" joint (Parent "base", Child "arm",
type revolute, Origin (0,0,0.5)) `export_urdf` does not return the
described `<joint>` element: line 60 of joint.py reads `self.name`, an
attribute the proxy never defines, and raises `AttributeError`; moreover
the parent/child strings of lines 62-63 lack the `f` prefix, so even with
the attributes present the elements would carry the literal brace text
instead of the sanitized labels. -/
theorem c1_export_urdf_raises_attribute_error :
    Joint.export_urdf shoulder_joint = .error (.attributeError "name") := rfl

/-- C6 counterexample: export of a joint with unset Parent and Child does
not fail with a MissingEndpoint condition: it raises
`AttributeError('name')`, which is exactly the failure export produces for
the fully specified "shoulder" joint as well, so the failure does not
depend on the endpoints and no other joint exports either. -/
theorem c6_missing_endpoint_counterexample :
    Joint.export_urdf dangling_joint = .error (.attributeError "name") ∧
    Joint.export_urdf shoulder_joint = .error (.attributeError "name") :=
  ⟨rfl, rfl⟩

/-- C6 (amended): `export_urdf` performs no endpoint validation at all: for
every joint, with or without Parent/Child set, it fails with
`AttributeError` on the undefined attribute `name`; no MissingEndpoint
condition exists in the code, joints with missing endpoints are not
distinguished from complete ones, and no aggregate export is implemented
in the module. -/
theorem c6_export_fails_uniformly (j : Joint) :
    Joint.export_urdf j = .error (.attributeError "name") := rfl

/-- C9: the Joint kinematic type enumeration contains exactly the values
fixed, revolute, prismatic, in that ordinal order (fixed at index 0,
revolute at index 1, prismatic at index 2). -/
theorem c9_type_enum_values :
    Joint.type_enum = ["fixed", "revolute", "prismatic"] ∧
    Joint.type_enum[0]? = some "fixed" ∧
    Joint.type_enum[1]? = some "revolute" ∧
    Joint.type_enum[2]? = some "prismatic" ∧
    Joint.type_enum.length = 3 :=
  ⟨rfl, rfl, rfl, rfl, rfl⟩

/-- C10: Robot persistence is a round-trip on exactly the two fields
`type` and `previous_link_count`: `__getstate__` returns that pair; for any
saved pair, `__setstate__` restores exactly those two fields and leaves
every other attribute of the target proxy unchanged; `__setstate__` of a
falsy state changes nothing. -/
theorem c10_state_roundtrip (r r' : Robot) :
    Robot.getstate r = (r.type, r.previous_link_count) ∧
    Robot.setstate r' (some (Robot.getstate r)) =
      { r' with type := r.type, previous_link_count := r.previous_link_count } ∧
    Robot.setstate r' none = r' :=
  ⟨rfl, rfl, rfl⟩

/-!
## Claim theorems: ambiguous parents (C2) and the missing recursion guard (C7)
-/

/-- A source object with two structural parents. -/
def two_parent_source : SourceObj :=
  { id := 100, name := "amb", parents := [(50, "a"), (51, "b")] }

/-- A link whose Real sequence holds the two-parent source object and which
owns no proxy yet. -/
def c2_link : RosLink :=
  { id := 1, name := "link1", label := "link1", group := [],
    real := [two_parent_source], visual := [], collision := [] }

/-- A robot whose only link demands a proxy for the two-parent source
object. -/
def c2_robot : Robot :=
  { doc := { proxies := [], links := [c2_link], rest := [], nextId := 10 },
    showReal := some true, showVisual := some false, showCollision := some false,
    type := "Ros::Robot", previous_link_count := 1 }

/-- C2 counterexample: reconciling a robot whose link owns a source object
with two structural parents does not emit one warning, does not fall back
to the identity transform and does not continue: the warning call names the
unbound `warn` (never imported in robot.py), so the whole `reset_group`
invocation aborts with `NameError`. -/
theorem c2_ambiguous_parent_counterexample :
    Robot.reset_group envId c2_robot = .error (.nameError "warn") := rfl

/-- C2 (amended): for every source object with more than one structural
parent that is not already proxied on the link, `_add_links_lod` raises
`NameError` — the warning helper `warn` is not imported in robot.py — so no
warning is emitted, no placement is assigned to any new proxy, and the
synchronization pass aborts with the exception. -/
theorem c2_ambiguous_parent_raises_name_error
    (env : Nat → String → Placement) (doc : Doc) (link : RosLink) (o : SourceObj)
    (rest : List SourceObj) (lod : String)
    (hmulti : 2 ≤ o.parents.length)
    (hnew : existing_link doc link o = none) :
    add_links_lod env doc link (o :: rest) lod = .error (.nameError "warn") := by
  have h1 : (o.parents.length != 1) = true := by
    rw [bne_iff_ne]
    omega
  simp only [add_links_lod, hnew, h1, if_true]

/-- Witness for the amended C2 at a concrete input. -/
theorem c2_ambiguous_parent_raises_name_error_witness :
    add_links_lod envId c2_robot.doc c2_link (two_parent_source :: []) "real" =
      .error (.nameError "warn") :=
  c2_ambiguous_parent_raises_name_error envId c2_robot.doc c2_link two_parent_source [] "real"
    (by decide) (by decide)

/-- A link owning one stale proxy (identity 7) and demanding nothing. -/
def c7_link : RosLink :=
  { id := 1, name := "link1", label := "link1", group := [7],
    real := [], visual := [], collision := [] }

/-- The stale proxy owned by `c7_link`. -/
def c7_proxy : LinkProxyObj :=
  { id := 7, name := "real_link1000", label := "real_link1000",
    linkedObject := some 100, linkPlacement := Placement.identity }

/-- A robot state in which a reset_group pass must delete a proxy, i.e.
mutate group membership. -/
def c7_robot : Robot :=
  { doc := { proxies := [c7_proxy], links := [c7_link], rest := [], nextId := 8 },
    showReal := some true, showVisual := some false, showCollision := some false,
    type := "Ros::Robot", previous_link_count := 1 }

/-- The state after the pass: the stale proxy is destroyed and detached. -/
def c7_robot_after : Robot :=
  { c7_robot with
    doc := { proxies := [], links := [{ c7_link with group := [] }], rest := [], nextId := 8 } }

/-- C7 (code bug): nothing in the code guards `reset_group` against
re-entry.  `onChanged` invokes `reset_group` for every `'Group'`
notification, for every robot state — in particular independently of the
`previous_link_count` variable that the commented-out guard
(robot.py:126-130) would have consulted — and a `reset_group` pass does
mutate group membership (here it deletes a stale proxy), which is exactly
the self-caused change notification the disabled guard was meant to
filter out. -/
theorem c7_group_change_unguarded :
    (∀ (env : Nat → String → Placement) (r : Robot),
        Robot.onChanged env r "Group" = Robot.reset_group env r) ∧
    Robot.onChanged envId c7_robot "Group" = .ok c7_robot_after ∧
    c7_robot_after.doc.links ≠ c7_robot.doc.links := by
  refine ⟨fun env r => ?_, ?_, ?_⟩
  · simp [Robot.onChanged]
  · rfl
  · decide

/-!
## Library of facts about identity lookup
-/

/-- Unfolding equation for the `_existing_link` scan: the head group member
is returned exactly when it links to the object. -/
theorem existing_link_go_cons (doc : Doc) (o : SourceObj) (g : Nat) (rest : List Nat) :
    existing_link_go doc o (g :: rest) =
      if doc.linksTo g o.id = true then some g else existing_link_go doc o rest := by
  rw [existing_link_go, Doc.linksTo]
  cases doc.findProxy g with
  | none => simp
  | some p => rfl

/-- Membership and linkage of a successful `_existing_link` scan. -/
theorem existing_link_go_mem_of_some (doc : Doc) (o : SourceObj) (gids : List Nat) (gid : Nat)
    (h : existing_link_go doc o gids = some gid) :
    gid ∈ gids ∧ doc.linksTo gid o.id = true := by
  induction gids with
  | nil => simp [existing_link_go] at h
  | cons g rest ih =>
    rw [existing_link_go_cons] at h
    by_cases hg : doc.linksTo g o.id = true
    · rw [if_pos hg] at h
      cases h
      exact ⟨List.mem_cons_self _ _, hg⟩
    · rw [if_neg hg] at h
      obtain ⟨h1, h2⟩ := ih h
      exact ⟨List.mem_cons_of_mem _ h1, h2⟩

/-- The `_existing_link` scan fails exactly when no group member links to
the object. -/
theorem existing_link_go_eq_none_iff (doc : Doc) (o : SourceObj) (gids : List Nat) :
    existing_link_go doc o gids = none ↔ ∀ gid ∈ gids, doc.linksTo gid o.id = false := by
  induction gids with
  | nil => simp [existing_link_go]
  | cons g rest ih =>
    rw [existing_link_go_cons]
    by_cases hg : doc.linksTo g o.id = true
    · rw [if_pos hg]
      simp only [List.mem_cons]
      constructor
      · intro h; cases h
      · intro h
        have := h g (Or.inl rfl)
        rw [hg] at this
        cases this
    · rw [if_neg hg, ih]
      simp only [List.mem_cons]
      constructor
      · intro h gid hm
        rcases hm with rfl | hm'
        · exact Bool.eq_false_iff.mpr hg
        · exact h gid hm'
      · intro h gid hm
        exact h gid (Or.inr hm)

/-- If the linking group member is unique, the `_existing_link` scan
returns exactly it. -/
theorem existing_link_go_unique (doc : Doc) (o : SourceObj) (gids : List Nat) (pid : Nat)
    (hmem : pid ∈ gids) (hlink : doc.linksTo pid o.id = true)
    (huniq : ∀ g ∈ gids, doc.linksTo g o.id = true → g = pid) :
    existing_link_go doc o gids = some pid := by
  induction gids with
  | nil => cases hmem
  | cons g rest ih =>
    rw [existing_link_go_cons]
    by_cases hg : doc.linksTo g o.id = true
    · rw [if_pos hg, huniq g (List.mem_cons_self _ _) hg]
    · rw [if_neg hg]
      have hne : g ≠ pid := fun h => hg (h ▸ hlink)
      have hmem' : pid ∈ rest := by
        rcases List.mem_cons.mp hmem with rfl | hm
        · exact absurd rfl hne
        · exact hm
      exact ih hmem' (fun x hx hl => huniq x (List.mem_cons_of_mem _ hx) hl)

/-- The `_existing_link` scan only reads the proxies it resolves. -/
theorem existing_link_go_congr (d₁ d₀ : Doc) (o : SourceObj) (gids : List Nat)
    (h : ∀ g ∈ gids, d₁.findProxy g = d₀.findProxy g) :
    existing_link_go d₁ o gids = existing_link_go d₀ o gids := by
  induction gids with
  | nil => rfl
  | cons g rest ih =>
    rw [existing_link_go_cons, existing_link_go_cons]
    have hlg : d₁.linksTo g o.id = d₀.linksTo g o.id := by
      rw [Doc.linksTo, Doc.linksTo, h g (List.mem_cons_self _ _)]
    rw [hlg, ih (fun x hx => h x (List.mem_cons_of_mem _ hx))]

/-- The dedup key of the `_existing_link` scan is the object's identity:
two source objects with the same identity produce the same lookup result,
whatever their names or other attributes. -/
theorem existing_link_go_id_congr (doc : Doc) (o o' : SourceObj) (hid : o.id = o'.id)
    (gids : List Nat) :
    existing_link_go doc o gids = existing_link_go doc o' gids := by
  induction gids with
  | nil => rfl
  | cons g rest ih =>
    rw [existing_link_go_cons, existing_link_go_cons, hid, ih]

/-- Projection facts for the created proxy record. -/
theorem newProxy_id (env : Nat → String → Placement) (doc : Doc) (link : RosLink)
    (o : SourceObj) (lod : String) : (newProxy env doc link o lod).id = doc.nextId := rfl

/-- Characterize a proxy linkage as a successful resolution. -/
theorem linksTo_iff (doc : Doc) (pid oid : Nat) :
    doc.linksTo pid oid = true ↔
      ∃ p, doc.findProxy pid = some p ∧ p.linkedObject = some oid := by
  rw [Doc.linksTo]
  cases hf : doc.findProxy pid with
  | none => simp
  | some p => simp [beq_iff_eq]

/-- Identity resolution below the allocation frontier ignores appended
fresh proxies. -/
theorem findProxy_append_of_lt (doc d : Doc) (qs : List LinkProxyObj) (n pid : Nat)
    (hd : d.proxies = doc.proxies ++ qs)
    (hq : ∀ q ∈ qs, n ≤ q.id) (hpid : pid < n) :
    d.findProxy pid = doc.findProxy pid := by
  rw [Doc.findProxy, Doc.findProxy, hd, List.find?_append]
  have hnone : qs.find? (fun p => p.id == pid) = none := by
    rw [List.find?_eq_none]
    intro q hqm hbe
    have hqe : q.id = pid := by simpa using hbe
    have := hq q hqm
    omega
  rw [hnone, Option.or_none]

/-- Linkage is determined by resolution. -/
theorem linksTo_congr (d doc : Doc) (pid oid : Nat)
    (h : d.findProxy pid = doc.findProxy pid) :
    d.linksTo pid oid = doc.linksTo pid oid := by
  rw [Doc.linksTo, Doc.linksTo, h]

/-- A successful resolution survives appending proxies on the right. -/
theorem findProxy_append_of_some (doc d : Doc) (qs : List LinkProxyObj) (pid : Nat)
    (p : LinkProxyObj) (hd : d.proxies = doc.proxies ++ qs)
    (h : doc.findProxy pid = some p) :
    d.findProxy pid = some p := by
  rw [Doc.findProxy, hd, List.find?_append]
  rw [Doc.findProxy] at h
  rw [h]
  rfl

/-- A true linkage survives appending proxies on the right. -/
theorem linksTo_append_of_true (doc d : Doc) (qs : List LinkProxyObj) (pid oid : Nat)
    (hd : d.proxies = doc.proxies ++ qs)
    (h : doc.linksTo pid oid = true) :
    d.linksTo pid oid = true := by
  obtain ⟨p, hf, hl⟩ := (linksTo_iff doc pid oid).mp h
  exact (linksTo_iff d pid oid).mpr ⟨p, findProxy_append_of_some doc d qs pid p hd hf, hl⟩

/-- A freshly appended proxy resolves to itself when every earlier proxy
carries a different identity. -/
theorem findProxy_append_head (doc d : Doc) (p : LinkProxyObj) (qs : List LinkProxyObj)
    (hd : d.proxies = doc.proxies ++ p :: qs)
    (hfr : ∀ q ∈ doc.proxies, q.id ≠ p.id) :
    d.findProxy p.id = some p := by
  rw [Doc.findProxy, hd, List.find?_append]
  have h1 : doc.proxies.find? (fun q => q.id == p.id) = none := by
    rw [List.find?_eq_none]
    intro q hq hbe
    exact hfr q hq (by simpa using hbe)
  rw [h1, List.find?_cons_of_pos _ (by simp)]
  rfl

/-!
## Specification of one `_add_links_lod` run

`AddLodOut doc link objects lod d l ids new` records everything reset_group
needs about a successful `_add_links_lod` call: `d`/`l` are the output
document and link, `ids` the returned list, `new` the proxies the call
created, in creation order.
-/

structure AddLodOut (doc : Doc) (link : RosLink) (objects : List SourceObj) (lod : String)
    (d : Doc) (l : RosLink) (ids : List Nat) (new : List LinkProxyObj) : Prop where
  proxies_eq : d.proxies = doc.proxies ++ new
  links_eq : d.links = doc.links
  rest_eq : d.rest = doc.rest
  nextId_le : doc.nextId ≤ d.nextId
  new_fresh : ∀ p ∈ new, doc.nextId ≤ p.id ∧ p.id < d.nextId
  new_nodup : (new.map (fun p => p.id)).Nodup
  id_eq : l.id = link.id
  name_eq : l.name = link.name
  label_eq : l.label = link.label
  real_eq : l.real = link.real
  visual_eq : l.visual = link.visual
  collision_eq : l.collision = link.collision
  group_eq : l.group = link.group ++ new.map (fun p => p.id)
  new_named : ∀ p ∈ new, p.name = lod ++ "_" ++ link.name ++ "000" ∧
      p.label = lod ++ "_" ++ link.name ++ "000" ∧ ∃ o ∈ objects, p.linkedObject = some o.id
  new_in_ids : ∀ p ∈ new, p.id ∈ ids
  ids_in_group : ∀ gid ∈ ids, gid ∈ l.group
  ids_old : ∀ gid ∈ ids, gid < doc.nextId →
      gid ∈ link.group ∧ ∃ o ∈ objects, doc.linksTo gid o.id = true
  covered : ∀ o ∈ objects, ∃ gid ∈ ids, d.linksTo gid o.id = true
  selected : ∀ o ∈ objects, ∀ pid ∈ link.group, doc.linksTo pid o.id = true →
      (∀ g ∈ link.group, doc.linksTo g o.id = true → g = pid) → pid ∈ ids
  no_clash : ∀ p ∈ new, ∀ oid, p.linkedObject = some oid →
      ∀ g ∈ link.group, doc.linksTo g oid = false
  new_inj : ∀ p ∈ new, ∀ q ∈ new, p.linkedObject = q.linkedObject → p = q

/-- The empty run changes nothing. -/
theorem add_lod_nil (doc : Doc) (link : RosLink) (lod : String) :
    AddLodOut doc link [] lod doc link [] [] := by
  refine { proxies_eq := by simp, links_eq := rfl, rest_eq := rfl,
           nextId_le := Nat.le_refl _, new_fresh := by simp, new_nodup := by simp,
           id_eq := rfl, name_eq := rfl, label_eq := rfl, real_eq := rfl,
           visual_eq := rfl, collision_eq := rfl, group_eq := by simp,
           new_named := by simp, new_in_ids := by simp, ids_in_group := by simp,
           ids_old := by simp, covered := by simp, selected := by simp,
           no_clash := by simp, new_inj := by simp }

/-- Step of the `_add_links_lod` specification when `_existing_link`
found a proxy to reuse. -/
theorem add_lod_step_found (doc : Doc) (link : RosLink) (o : SourceObj)
    (rest : List SourceObj) (lod : String) (d : Doc) (l : RosLink) (ids' : List Nat)
    (gid : Nat) (hE : existing_link doc link o = some gid)
    (new : List LinkProxyObj)
    (S : AddLodOut doc link rest lod d l ids' new) :
    AddLodOut doc link (o :: rest) lod d l (gid :: ids') new := by
  obtain ⟨hgm, hglink⟩ := existing_link_go_mem_of_some doc o link.group gid hE
  refine { proxies_eq := S.proxies_eq, links_eq := S.links_eq, rest_eq := S.rest_eq,
           nextId_le := S.nextId_le, new_fresh := S.new_fresh, new_nodup := S.new_nodup,
           id_eq := S.id_eq, name_eq := S.name_eq, label_eq := S.label_eq,
           real_eq := S.real_eq, visual_eq := S.visual_eq, collision_eq := S.collision_eq,
           group_eq := S.group_eq,
           new_named := ?_, new_in_ids := ?_, ids_in_group := ?_, ids_old := ?_,
           covered := ?_, selected := ?_,
           no_clash := S.no_clash, new_inj := S.new_inj }
  · intro p hp
    obtain ⟨h1, h2, o', ho', h3⟩ := S.new_named p hp
    exact ⟨h1, h2, o', List.mem_cons_of_mem _ ho', h3⟩
  · intro p hp
    exact List.mem_cons_of_mem _ (S.new_in_ids p hp)
  · intro g hgmem
    rcases List.mem_cons.mp hgmem with rfl | hg'
    · rw [S.group_eq]
      exact List.mem_append_left _ hgm
    · exact S.ids_in_group g hg'
  · intro g hgmem hlt
    rcases List.mem_cons.mp hgmem with rfl | hg'
    · exact ⟨hgm, o, List.mem_cons_self _ _, hglink⟩
    · obtain ⟨hm, o', ho', hl'⟩ := S.ids_old g hg' hlt
      exact ⟨hm, o', List.mem_cons_of_mem _ ho', hl'⟩
  · intro o' ho'
    rcases List.mem_cons.mp ho' with rfl | ho''
    · exact ⟨gid, List.mem_cons_self _ _,
        linksTo_append_of_true doc d new gid o'.id S.proxies_eq hglink⟩
    · obtain ⟨g, hgm2, hl2⟩ := S.covered o' ho''
      exact ⟨g, List.mem_cons_of_mem _ hgm2, hl2⟩
  · intro o' ho' pid hpid hplink huniq
    rcases List.mem_cons.mp ho' with rfl | ho''
    · have hgp : gid = pid := huniq gid hgm hglink
      rw [← hgp]
      exact List.mem_cons_self _ _
    · exact List.mem_cons_of_mem _ (S.selected o' ho'' pid hpid hplink huniq)

/-- Step of the `_add_links_lod` specification when a proxy is created:
`np` is the created proxy, `doc'` and `link'` the states registered with
the host before the remaining objects are processed. -/
theorem add_lod_step_new (env : Nat → String → Placement) (lod : String)
    (doc : Doc) (link : RosLink) (o : SourceObj) (rest : List SourceObj)
    (d : Doc) (l : RosLink) (ids' : List Nat)
    (np : LinkProxyObj) (doc' : Doc) (link' : RosLink)
    (hnp : np = newProxy env doc link o lod)
    (hdoc' : doc' = { doc with proxies := doc.proxies ++ [np], nextId := doc.nextId + 1 })
    (hlink' : link' = { link with group := link.group ++ [np.id] })
    (hE : existing_link doc link o = none)
    (hfr : ∀ p ∈ doc.proxies, p.id < doc.nextId)
    (hg : ∀ g ∈ link.group, g < doc.nextId)
    (new' : List LinkProxyObj)
    (S' : AddLodOut doc' link' rest lod d l ids' new') :
    AddLodOut doc link (o :: rest) lod d l (np.id :: ids') (np :: new') := by
  have hnone : ∀ g ∈ link.group, doc.linksTo g o.id = false :=
    (existing_link_go_eq_none_iff doc o link.group).mp hE
  have hnpid : np.id = doc.nextId := by rw [hnp]; rfl
  have hnplink : np.linkedObject = some o.id := by rw [hnp]; rfl
  have hnpname : np.name = lod ++ "_" ++ link.name ++ "000" := by rw [hnp]; rfl
  have hnplabel : np.label = lod ++ "_" ++ link.name ++ "000" := by rw [hnp]; rfl
  have hdp : doc'.proxies = doc.proxies ++ [np] := by rw [hdoc']
  have hdn : doc'.nextId = doc.nextId + 1 := by rw [hdoc']
  have hdl : doc'.links = doc.links := by rw [hdoc']
  have hdr : doc'.rest = doc.rest := by rw [hdoc']
  have hlg : link'.group = link.group ++ [np.id] := by rw [hlink']
  have hlid : link'.id = link.id := by rw [hlink']
  have hlname : link'.name = link.name := by rw [hlink']
  have hllabel : link'.label = link.label := by rw [hlink']
  have hlreal : link'.real = link.real := by rw [hlink']
  have hlvis : link'.visual = link.visual := by rw [hlink']
  have hlcol : link'.collision = link.collision := by rw [hlink']
  -- transports across the single appended proxy
  have hfresh1 : ∀ q ∈ [np], doc.nextId ≤ q.id := by
    intro q hq
    rw [List.mem_singleton] at hq
    subst hq
    rw [hnpid]
  have hstable : ∀ g, g < doc.nextId → doc'.findProxy g = doc.findProxy g := by
    intro g hglt
    exact findProxy_append_of_lt doc doc' [np] doc.nextId g hdp hfresh1 hglt
  have hstable_links : ∀ g, g < doc.nextId → ∀ oid,
      doc'.linksTo g oid = doc.linksTo g oid := by
    intro g hglt oid
    exact linksTo_congr doc' doc g oid (hstable g hglt)
  have hnp_res : doc'.findProxy np.id = some np := by
    refine findProxy_append_head doc doc' np [] hdp ?_
    intro q hq
    have := hfr q hq
    omega
  have hnp_links : doc'.linksTo np.id o.id = true :=
    (linksTo_iff doc' np.id o.id).mpr ⟨np, hnp_res, hnplink⟩
  have hd_proxies : d.proxies = doc.proxies ++ np :: new' := by
    have h1 : d.proxies = (doc.proxies ++ [np]) ++ new' := by
      rw [S'.proxies_eq, hdp]
    rw [h1, List.append_assoc, List.singleton_append]
  have hd_res_np : d.findProxy np.id = some np := by
    refine findProxy_append_head doc d np new' hd_proxies ?_
    intro q hq
    have := hfr q hq
    omega
  have hnle : doc.nextId + 1 ≤ d.nextId := by
    have := S'.nextId_le
    rw [hdn] at this
    exact this
  have hnf : ∀ q ∈ new', doc.nextId + 1 ≤ q.id ∧ q.id < d.nextId := by
    intro q hq
    have := S'.new_fresh q hq
    rw [hdn] at this
    exact this
  refine { proxies_eq := hd_proxies,
           links_eq := by rw [S'.links_eq, hdl],
           rest_eq := by rw [S'.rest_eq, hdr],
           nextId_le := le_trans (Nat.le_succ _) hnle,
           new_fresh := ?_, new_nodup := ?_,
           id_eq := by rw [S'.id_eq, hlid],
           name_eq := by rw [S'.name_eq, hlname],
           label_eq := by rw [S'.label_eq, hllabel],
           real_eq := by rw [S'.real_eq, hlreal],
           visual_eq := by rw [S'.visual_eq, hlvis],
           collision_eq := by rw [S'.collision_eq, hlcol],
           group_eq := ?_,
           new_named := ?_, new_in_ids := ?_, ids_in_group := ?_, ids_old := ?_,
           covered := ?_, selected := ?_, no_clash := ?_, new_inj := ?_ }
  · -- new_fresh
    intro q hq
    rcases List.mem_cons.mp hq with rfl | hq'
    · constructor
      · rw [hnpid]
      · rw [hnpid]
        omega
    · have := hnf q hq'
      omega
  · -- new_nodup
    rw [List.map_cons, List.nodup_cons]
    constructor
    · intro hmem
      obtain ⟨q, hq, hqid⟩ := List.mem_map.mp hmem
      have := hnf q hq
      rw [hqid, hnpid] at this
      omega
    · exact S'.new_nodup
  · -- group_eq
    have h1 : l.group = (link.group ++ [np.id]) ++ new'.map (fun p => p.id) := by
      rw [S'.group_eq, hlg]
    rw [h1, List.append_assoc, List.singleton_append, List.map_cons]
  · -- new_named
    intro q hq
    rcases List.mem_cons.mp hq with rfl | hq'
    · exact ⟨hnpname, hnplabel, o, List.mem_cons_self _ _, hnplink⟩
    · obtain ⟨h1, h2, o', ho', h3⟩ := S'.new_named q hq'
      rw [hlname] at h1 h2
      exact ⟨h1, h2, o', List.mem_cons_of_mem _ ho', h3⟩
  · -- new_in_ids
    intro q hq
    rcases List.mem_cons.mp hq with rfl | hq'
    · exact List.mem_cons_self _ _
    · exact List.mem_cons_of_mem _ (S'.new_in_ids q hq')
  · -- ids_in_group
    intro g hgmem
    rcases List.mem_cons.mp hgmem with rfl | hg'
    · have h1 : l.group = (link.group ++ [np.id]) ++ new'.map (fun p => p.id) := by
        rw [S'.group_eq, hlg]
      rw [h1]
      exact List.mem_append_left _ (List.mem_append_right _ (List.mem_singleton.mpr rfl))
    · exact S'.ids_in_group g hg'
  · -- ids_old
    intro g hgmem hlt
    rcases List.mem_cons.mp hgmem with rfl | hg'
    · rw [hnpid] at hlt
      omega
    · have hlt' : g < doc'.nextId := by rw [hdn]; omega
      obtain ⟨hm, o', ho', hl'⟩ := S'.ids_old g hg' hlt'
      rw [hlg] at hm
      rcases List.mem_append.mp hm with hm' | hm'
      · refine ⟨hm', o', List.mem_cons_of_mem _ ho', ?_⟩
        rw [← hstable_links g hlt o'.id]
        exact hl'
      · rw [List.mem_singleton] at hm'
        rw [hm', hnpid] at hlt
        omega
  · -- covered
    intro o' ho'
    rcases List.mem_cons.mp ho' with rfl | ho''
    · exact ⟨np.id, List.mem_cons_self _ _,
        (linksTo_iff d np.id o'.id).mpr ⟨np, hd_res_np, hnplink⟩⟩
    · obtain ⟨g, hgm2, hl2⟩ := S'.covered o' ho''
      exact ⟨g, List.mem_cons_of_mem _ hgm2, hl2⟩
  · -- selected
    intro o' ho' pid hpid hplink huniq
    rcases List.mem_cons.mp ho' with rfl | ho''
    · have := hnone pid hpid
      rw [hplink] at this
      cases this
    · have hpidlt : pid < doc.nextId := hg pid hpid
      have hpid' : pid ∈ link'.group := by
        rw [hlg]
        exact List.mem_append_left _ hpid
      have hplink' : doc'.linksTo pid o'.id = true := by
        rw [hstable_links pid hpidlt o'.id]
        exact hplink
      have huniq' : ∀ g ∈ link'.group, doc'.linksTo g o'.id = true → g = pid := by
        intro g hgm hgl
        rw [hlg] at hgm
        rcases List.mem_append.mp hgm with hgm' | hgm'
        · refine huniq g hgm' ?_
          rw [← hstable_links g (hg g hgm') o'.id]
          exact hgl
        · rw [List.mem_singleton] at hgm'
          subst hgm'
          obtain ⟨q, hq, hql⟩ := (linksTo_iff doc' np.id o'.id).mp hgl
          rw [hnp_res] at hq
          cases hq
          rw [hnplink] at hql
          have hoid : o.id = o'.id := by
            injection hql
          rw [← hoid] at hplink
          have := hnone pid hpid
          rw [hplink] at this
          cases this
      exact List.mem_cons_of_mem _ (S'.selected o' ho'' pid hpid' hplink' huniq')
  · -- no_clash
    intro q hq oid hqlink g hgm
    rcases List.mem_cons.mp hq with hq0 | hq'
    · have hoid : oid = o.id := Option.some.inj ((hq0 ▸ hqlink : np.linkedObject = some oid).symm.trans hnplink)
      rw [hoid]
      exact hnone g hgm
    · have h1 := S'.no_clash q hq' oid hqlink g (by rw [hlg]; exact List.mem_append_left _ hgm)
      rw [hstable_links g (hg g hgm) oid] at h1
      exact h1
  · -- new_inj
    intro q hq q2 hq2 hql
    have hmemnp : np.id ∈ link'.group := by
      rw [hlg]
      exact List.mem_append_right _ (List.mem_singleton.mpr rfl)
    rcases List.mem_cons.mp hq with hq0 | hq'
    · rcases List.mem_cons.mp hq2 with hq20 | hq2'
      · rw [hq0, hq20]
      · exfalso
        have hql2 : q2.linkedObject = some o.id := by
          rw [← hql, hq0, hnplink]
        have h1 := S'.no_clash q2 hq2' o.id hql2 np.id hmemnp
        rw [hnp_links] at h1
        cases h1
    · rcases List.mem_cons.mp hq2 with hq20 | hq2'
      · exfalso
        have hql1 : q.linkedObject = some o.id := by
          rw [hql, hq20, hnplink]
        have h1 := S'.no_clash q hq' o.id hql1 np.id hmemnp
        rw [hnp_links] at h1
        cases h1
      · exact S'.new_inj q hq' q2 hq2' hql

/-- Unfolding equation of `_add_links_lod` when the head object is already
proxied. -/
theorem add_links_lod_cons_found (env : Nat → String → Placement) (doc : Doc)
    (link : RosLink) (o : SourceObj) (rest : List SourceObj) (lod : String) (gid : Nat)
    (hE : existing_link doc link o = some gid) :
    add_links_lod env doc link (o :: rest) lod =
      match add_links_lod env doc link rest lod with
      | .ok (d, l, ids) => .ok (d, l, gid :: ids)
      | .error e => .error e := by
  rw [add_links_lod, hE]

/-- Unfolding equation of `_add_links_lod` when the head object needs a new
proxy and has exactly one structural parent. -/
theorem add_links_lod_cons_new (env : Nat → String → Placement) (doc : Doc)
    (link : RosLink) (o : SourceObj) (rest : List SourceObj) (lod : String)
    (hE : existing_link doc link o = none)
    (hlen : (o.parents.length != 1) = false) :
    add_links_lod env doc link (o :: rest) lod =
      match add_links_lod env (docWithNew doc (newProxy env doc link o lod))
          (linkWithNew link (newProxy env doc link o lod)) rest lod with
      | .ok (d, l, ids) => .ok (d, l, (newProxy env doc link o lod).id :: ids)
      | .error e => .error e := by
  rw [add_links_lod, hE]
  simp only [hlen, Bool.false_eq_true, if_false]

/-- Unfolding equation of `_add_links_lod` when the head object needs a new
proxy and does not have exactly one structural parent: the `warn` lookup
raises `NameError`. -/
theorem add_links_lod_cons_warn (env : Nat → String → Placement) (doc : Doc)
    (link : RosLink) (o : SourceObj) (rest : List SourceObj) (lod : String)
    (hE : existing_link doc link o = none)
    (hlen : (o.parents.length != 1) = true) :
    add_links_lod env doc link (o :: rest) lod = .error (.nameError "warn") := by
  rw [add_links_lod, hE]
  simp only [hlen, if_true]

/-- Master specification of a successful `_add_links_lod` call. -/
theorem add_lod_spec (env : Nat → String → Placement) (lod : String)
    (objects : List SourceObj) :
    ∀ (doc : Doc) (link : RosLink) (d : Doc) (l : RosLink) (ids : List Nat),
      add_links_lod env doc link objects lod = .ok (d, l, ids) →
      (∀ p ∈ doc.proxies, p.id < doc.nextId) →
      (∀ g ∈ link.group, g < doc.nextId) →
      ∃ new, AddLodOut doc link objects lod d l ids new := by
  induction objects with
  | nil =>
    intro doc link d l ids hok hfr hg
    simp only [add_links_lod] at hok
    obtain ⟨rfl, rfl, rfl⟩ : doc = d ∧ link = l ∧ ([] : List Nat) = ids := by
      simpa using hok
    exact ⟨[], add_lod_nil doc link lod⟩
  | cons o rest ih =>
    intro doc link d l ids hok hfr hg
    cases hE : existing_link doc link o with
    | some gid =>
      rw [add_links_lod_cons_found env doc link o rest lod gid hE] at hok
      cases hrec : add_links_lod env doc link rest lod with
      | error e =>
        rw [hrec] at hok
        exact absurd hok (by simp)
      | ok t =>
        obtain ⟨d', l', ids'⟩ := t
        rw [hrec] at hok
        obtain ⟨rfl, rfl, rfl⟩ : d' = d ∧ l' = l ∧ gid :: ids' = ids := by
          simpa using hok
        obtain ⟨new, S⟩ := ih doc link d' l' ids' hrec hfr hg
        exact ⟨new, add_lod_step_found doc link o rest lod d' l' ids' gid hE new S⟩
    | none =>
      cases hlen : (o.parents.length != 1) with
      | true =>
        rw [add_links_lod_cons_warn env doc link o rest lod hE hlen] at hok
        exact absurd hok (by simp)
      | false =>
        rw [add_links_lod_cons_new env doc link o rest lod hE hlen] at hok
        cases hrec : add_links_lod env (docWithNew doc (newProxy env doc link o lod))
            (linkWithNew link (newProxy env doc link o lod)) rest lod with
        | error e =>
          rw [hrec] at hok
          exact absurd hok (by simp)
        | ok t =>
          obtain ⟨d', l', ids'⟩ := t
          rw [hrec] at hok
          obtain ⟨rfl, rfl, rfl⟩ :
              d' = d ∧ l' = l ∧ (newProxy env doc link o lod).id :: ids' = ids := by
            simpa using hok
          have hfr' : ∀ p ∈ doc.proxies ++ [newProxy env doc link o lod],
              p.id < doc.nextId + 1 := by
            intro q hq
            rcases List.mem_append.mp hq with h | h
            · exact Nat.lt_succ_of_lt (hfr q h)
            · rw [List.mem_singleton] at h
              subst h
              rw [newProxy_id]
              exact Nat.lt_succ_self _
          have hg' : ∀ g ∈ link.group ++ [(newProxy env doc link o lod).id],
              g < doc.nextId + 1 := by
            intro g hgm
            rcases List.mem_append.mp hgm with h | h
            · exact Nat.lt_succ_of_lt (hg g h)
            · rw [List.mem_singleton] at h
              subst h
              rw [newProxy_id]
              exact Nat.lt_succ_self _
          obtain ⟨new', S'⟩ := ih _ _ d' l' ids' hrec hfr' hg'
          exact ⟨newProxy env doc link o lod :: new',
            add_lod_step_new env lod doc link o rest d' l' ids'
              (newProxy env doc link o lod) _ _ rfl rfl rfl hE hfr hg new' S'⟩

/-- C8: every proxy newly created during a synchronization pass for link
`link` and LOD label `lod` is given the name (and label) formed by
concatenating `lod`, an underscore, the link's name and the fixed literal
suffix "000"; the suffix is the same constant for every new proxy of the
pass, so any two new proxies for the same link and LOD category receive
colliding names (third conjunct). -/
theorem c8_new_proxy_naming (env : Nat → String → Placement) (doc : Doc) (link : RosLink)
    (objects : List SourceObj) (lod : String) (d : Doc) (l : RosLink) (ids : List Nat)
    (hok : add_links_lod env doc link objects lod = .ok (d, l, ids))
    (hfr : ∀ p ∈ doc.proxies, p.id < doc.nextId)
    (hg : ∀ g ∈ link.group, g < doc.nextId)
    (p : LinkProxyObj) (hpd : p ∈ d.proxies) (hpnew : p ∉ doc.proxies) :
    p.name = lod ++ "_" ++ link.name ++ "000" ∧
    p.label = lod ++ "_" ++ link.name ++ "000" ∧
    ∀ q ∈ d.proxies, q ∉ doc.proxies → q.name = p.name := by
  obtain ⟨new, S⟩ := add_lod_spec env lod objects doc link d l ids hok hfr hg
  have hmem : ∀ r : LinkProxyObj, r ∈ d.proxies → r ∉ doc.proxies → r ∈ new := by
    intro r hrd hrn
    rw [S.proxies_eq] at hrd
    rcases List.mem_append.mp hrd with h | h
    · exact absurd h hrn
    · exact h
  obtain ⟨h1, h2, -⟩ := S.new_named p (hmem p hpd hpnew)
  refine ⟨h1, h2, ?_⟩
  intro q hqd hqn
  obtain ⟨h1', -, -⟩ := S.new_named q (hmem q hqd hqn)
  rw [h1', h1]

/-- Fixtures for the naming-collision witness: an empty link demanding two
distinct one-parent source objects. -/
def c8_doc : Doc := { proxies := [], links := [], rest := [], nextId := 5 }

def c8_link : RosLink :=
  { id := 1, name := "link1", label := "link1", group := [],
    real := [], visual := [], collision := [] }

def c8_objA : SourceObj := { id := 100, name := "a", parents := [(50, "s")] }

def c8_objB : SourceObj := { id := 101, name := "b", parents := [(50, "t")] }

def c8_proxyA : LinkProxyObj :=
  { id := 5, name := "real_link1000", label := "real_link1000",
    linkedObject := some 100, linkPlacement := Placement.identity }

def c8_proxyB : LinkProxyObj :=
  { id := 6, name := "real_link1000", label := "real_link1000",
    linkedObject := some 101, linkPlacement := Placement.identity }

def c8_out_doc : Doc :=
  { proxies := [c8_proxyA, c8_proxyB], links := [], rest := [], nextId := 7 }

def c8_out_link : RosLink := { c8_link with group := [5, 6] }

/-- Witness for C8 at a concrete input: both created proxies receive the
identical name "real_link1000". -/
theorem c8_new_proxy_naming_witness :
    c8_proxyA.name = "real" ++ "_" ++ c8_link.name ++ "000" ∧
    c8_proxyA.label = "real" ++ "_" ++ c8_link.name ++ "000" ∧
    ∀ q ∈ c8_out_doc.proxies, q ∉ c8_doc.proxies → q.name = c8_proxyA.name :=
  c8_new_proxy_naming envId c8_doc c8_link [c8_objA, c8_objB] "real"
    c8_out_doc c8_out_link [5, 6] rfl (by decide) (by decide)
    c8_proxyA (by decide) (by decide)

/-!
## Document evolution across a reconciliation pass
-/

/-- A link evolved by appending freshly allocated group members whose
identities lie in the allocation window [n₀, n₁); nothing else changes. -/
def LinkExt (n₀ n₁ : Nat) (l₀ l₁ : RosLink) : Prop :=
  l₁.id = l₀.id ∧ l₁.name = l₀.name ∧ l₁.label = l₀.label ∧
  l₁.real = l₀.real ∧ l₁.visual = l₀.visual ∧ l₁.collision = l₀.collision ∧
  ∃ ext : List Nat, l₁.group = l₀.group ++ ext ∧ ext.Nodup ∧ ∀ g ∈ ext, n₀ ≤ g ∧ g < n₁

theorem linkext_refl (n₀ n₁ : Nat) (l : RosLink) : LinkExt n₀ n₁ l l :=
  ⟨rfl, rfl, rfl, rfl, rfl, rfl, [], by simp, List.nodup_nil, by simp⟩

theorem linkext_trans (n₀ n₁ n₂ : Nat) (l₀ l₁ l₂ : RosLink)
    (h01 : LinkExt n₀ n₁ l₀ l₁) (h12 : LinkExt n₁ n₂ l₁ l₂) (h : n₀ ≤ n₁)
    (h' : n₁ ≤ n₂) :
    LinkExt n₀ n₂ l₀ l₂ := by
  obtain ⟨i1, m1, b1, r1, v1, c1, e1, g1, nd1, f1⟩ := h01
  obtain ⟨i2, m2, b2, r2, v2, c2, e2, g2, nd2, f2⟩ := h12
  refine ⟨i2.trans i1, m2.trans m1, b2.trans b1, r2.trans r1, v2.trans v1, c2.trans c1,
    e1 ++ e2, by rw [g2, g1, List.append_assoc], ?_, ?_⟩
  · refine List.Nodup.append nd1 nd2 ?_
    intro a ha1 ha2
    have h1 := f1 a ha1
    have h2 := f2 a ha2
    omega
  · intro g hg
    rcases List.mem_append.mp hg with h' | h'
    · have := f1 g h'
      omega
    · have := f2 g h'
      omega

/-- A document evolved by appending freshly allocated proxies and extending
link groups, as one guarded LOD pass does. -/
def DocExt (d₀ d₁ : Doc) : Prop :=
  d₁.rest = d₀.rest ∧ d₀.nextId ≤ d₁.nextId ∧
  (∃ new : List LinkProxyObj, d₁.proxies = d₀.proxies ++ new ∧
     ∀ p ∈ new, d₀.nextId ≤ p.id ∧ p.id < d₁.nextId) ∧
  List.Forall₂ (LinkExt d₀.nextId d₁.nextId) d₀.links d₁.links

theorem docext_refl (d : Doc) : DocExt d d :=
  ⟨rfl, Nat.le_refl _, ⟨[], by simp, by simp⟩,
    List.forall₂_same.mpr fun x _ => linkext_refl _ _ x⟩

/-- Compose two pointwise-related list relations. -/
theorem forall₂_trans_of {α : Type} {R S T : α → α → Prop}
    (h : ∀ a b c, R a b → S b c → T a c) :
    ∀ {l₁ l₂ l₃ : List α}, List.Forall₂ R l₁ l₂ → List.Forall₂ S l₂ l₃ →
      List.Forall₂ T l₁ l₃ := by
  intro l₁ l₂ l₃ h12
  induction h12 generalizing l₃ with
  | nil =>
    intro h23
    cases h23
    constructor
  | cons hab htail ih =>
    intro h23
    cases h23 with
    | cons hbc htail' => exact List.Forall₂.cons (h _ _ _ hab hbc) (ih htail')

theorem docext_trans (d₀ d₁ d₂ : Doc) (h01 : DocExt d₀ d₁) (h12 : DocExt d₁ d₂) :
    DocExt d₀ d₂ := by
  obtain ⟨r1, n1, ⟨new1, p1, f1⟩, l1⟩ := h01
  obtain ⟨r2, n2, ⟨new2, p2, f2⟩, l2⟩ := h12
  refine ⟨r2.trans r1, n1.trans n2, ⟨new1 ++ new2, by rw [p2, p1, List.append_assoc], ?_⟩, ?_⟩
  · intro p hp
    rcases List.mem_append.mp hp with h' | h'
    · have := f1 p h'
      omega
    · have := f2 p h'
      omega
  · exact forall₂_trans_of
      (fun a b c hab hbc => linkext_trans d₀.nextId d₁.nextId d₂.nextId a b c hab hbc n1 n2)
      l1 l2

/-- Identity resolution below the older allocation frontier is unchanged by
a pass. -/
theorem docext_findProxy_lt (d₀ d₁ : Doc) (h : DocExt d₀ d₁) (pid : Nat)
    (hpid : pid < d₀.nextId) :
    d₁.findProxy pid = d₀.findProxy pid := by
  obtain ⟨-, -, ⟨new, hp, hf⟩, -⟩ := h
  exact findProxy_append_of_lt d₀ d₁ new d₀.nextId pid hp (fun q hq => (hf q hq).1) hpid

theorem docext_linksTo_lt (d₀ d₁ : Doc) (h : DocExt d₀ d₁) (pid : Nat)
    (hpid : pid < d₀.nextId) (oid : Nat) :
    d₁.linksTo pid oid = d₀.linksTo pid oid :=
  linksTo_congr d₁ d₀ pid oid (docext_findProxy_lt d₀ d₁ h pid hpid)

theorem docext_findProxy_some (d₀ d₁ : Doc) (h : DocExt d₀ d₁) (pid : Nat)
    (p : LinkProxyObj) (hp : d₀.findProxy pid = some p) :
    d₁.findProxy pid = some p := by
  obtain ⟨-, -, ⟨new, hpr, -⟩, -⟩ := h
  exact findProxy_append_of_some d₀ d₁ new pid p hpr hp

theorem docext_linksTo_some (d₀ d₁ : Doc) (h : DocExt d₀ d₁) (pid oid : Nat)
    (hl : d₀.linksTo pid oid = true) :
    d₁.linksTo pid oid = true := by
  obtain ⟨p, hf, hlk⟩ := (linksTo_iff d₀ pid oid).mp hl
  exact (linksTo_iff d₁ pid oid).mpr ⟨p, docext_findProxy_some d₀ d₁ h pid p hf, hlk⟩

/-- Link lookup across pointwise-related link lists, forward direction. -/
theorem forall₂_find_id_fwd (n₀ n₁ lid : Nat) :
    ∀ {ls₀ ls₁ : List RosLink}, List.Forall₂ (LinkExt n₀ n₁) ls₀ ls₁ →
      ∀ l₀, ls₀.find? (fun x => x.id == lid) = some l₀ →
        ∃ l₁, ls₁.find? (fun x => x.id == lid) = some l₁ ∧ LinkExt n₀ n₁ l₀ l₁ := by
  intro ls₀ ls₁ h
  induction h with
  | nil =>
    intro l₀ h0
    simp at h0
  | cons hab htail ih =>
    rename_i a b la lb
    intro l₀ h0
    by_cases hid : (a.id == lid) = true
    · rw [@List.find?_cons_of_pos _ (fun x => x.id == lid) a la hid] at h0
      cases h0
      have hbid : (b.id == lid) = true := by
        rw [hab.1]
        exact hid
      exact ⟨b, @List.find?_cons_of_pos _ (fun x => x.id == lid) b lb hbid, hab⟩
    · rw [@List.find?_cons_of_neg _ (fun x => x.id == lid) a la hid] at h0
      obtain ⟨l₁, hf, he⟩ := ih l₀ h0
      have hbid : ¬(b.id == lid) = true := by
        rw [hab.1]
        exact hid
      exact ⟨l₁, by rw [@List.find?_cons_of_neg _ (fun x => x.id == lid) b lb hbid]; exact hf, he⟩

/-- Link lookup across pointwise-related link lists, backward direction. -/
theorem forall₂_find_id_bwd (n₀ n₁ lid : Nat) :
    ∀ {ls₀ ls₁ : List RosLink}, List.Forall₂ (LinkExt n₀ n₁) ls₀ ls₁ →
      ∀ l₁, ls₁.find? (fun x => x.id == lid) = some l₁ →
        ∃ l₀, ls₀.find? (fun x => x.id == lid) = some l₀ ∧ LinkExt n₀ n₁ l₀ l₁ := by
  intro ls₀ ls₁ h
  induction h with
  | nil =>
    intro l₁ h0
    simp at h0
  | cons hab htail ih =>
    rename_i a b la lb
    intro l₁ h0
    by_cases hid : (b.id == lid) = true
    · rw [@List.find?_cons_of_pos _ (fun x => x.id == lid) b lb hid] at h0
      cases h0
      have haid : (a.id == lid) = true := by
        rw [← hab.1]
        exact hid
      exact ⟨a, @List.find?_cons_of_pos _ (fun x => x.id == lid) a la haid, hab⟩
    · rw [@List.find?_cons_of_neg _ (fun x => x.id == lid) b lb hid] at h0
      obtain ⟨l₀, hf, he⟩ := ih l₁ h0
      have haid : ¬(a.id == lid) = true := by
        rw [← hab.1]
        exact hid
      exact ⟨l₀, by rw [@List.find?_cons_of_neg _ (fun x => x.id == lid) a la haid]; exact hf, he⟩

/-- Link lookup through a pass, forward direction. -/
theorem docext_getLink_fwd (d₀ d₁ : Doc) (h : DocExt d₀ d₁) (lid : Nat) (l₀ : RosLink)
    (hget : d₀.getLink lid = some l₀) :
    ∃ l₁, d₁.getLink lid = some l₁ ∧ LinkExt d₀.nextId d₁.nextId l₀ l₁ :=
  forall₂_find_id_fwd d₀.nextId d₁.nextId lid h.2.2.2 l₀ hget

/-- Link lookup through a pass, backward direction. -/
theorem docext_getLink_bwd (d₀ d₁ : Doc) (h : DocExt d₀ d₁) (lid : Nat) (l₁ : RosLink)
    (hget : d₁.getLink lid = some l₁) :
    ∃ l₀, d₀.getLink lid = some l₀ ∧ LinkExt d₀.nextId d₁.nextId l₀ l₁ :=
  forall₂_find_id_bwd d₀.nextId d₁.nextId lid h.2.2.2 l₁ hget

/-- Core well-formedness of a document as the host maintains it: allocated
identities lie below the allocation frontier, link identities are unique,
and group members were allocated by the host. -/
def Doc.wfCore (doc : Doc) : Prop :=
  (∀ p ∈ doc.proxies, p.id < doc.nextId) ∧
  (doc.links.map (fun l => l.id)).Nodup ∧
  (∀ l ∈ doc.links, ∀ g ∈ l.group, g < doc.nextId)

theorem getLink_mem (doc : Doc) (lid : Nat) (l : RosLink) (h : doc.getLink lid = some l) :
    l ∈ doc.links ∧ l.id = lid := by
  refine ⟨List.mem_of_find?_eq_some h, ?_⟩
  have := List.find?_some h
  simpa using this

theorem getLink_unique (doc : Doc) (lid : Nat) (l : RosLink)
    (hnd : (doc.links.map (fun x => x.id)).Nodup)
    (hget : doc.getLink lid = some l)
    (x : RosLink) (hx : x ∈ doc.links) (hxid : x.id = lid) : x = l := by
  obtain ⟨hlm, hlid⟩ := getLink_mem doc lid l hget
  exact List.inj_on_of_nodup_map hnd hx hlm (by rw [hxid, hlid])

theorem mem_getLink_self (doc : Doc) (hnd : (doc.links.map (fun x => x.id)).Nodup)
    (l : RosLink) (hl : l ∈ doc.links) : doc.getLink l.id = some l := by
  cases hget : doc.getLink l.id with
  | none =>
    rw [Doc.getLink, List.find?_eq_none] at hget
    exact absurd (by simp) (hget l hl)
  | some l' =>
    rw [getLink_unique doc l.id l' hnd hget l hl rfl]

/-- Finding by identity in a link list where one entry was replaced by the
matching update. -/
theorem find?_id_map_set (l' : RosLink) (lid : Nat) (hid : l'.id = lid) :
    ∀ (ls : List RosLink) (l : RosLink), ls.find? (fun x => x.id == lid) = some l →
      (ls.map (fun x => if x.id == l'.id then l' else x)).find? (fun x => x.id == lid) =
        some l' := by
  intro ls
  induction ls with
  | nil =>
    intro l h
    simp at h
  | cons a la ih =>
    intro l h
    simp only [List.map_cons]
    by_cases ha : (a.id == lid) = true
    · have ha' : (a.id == l'.id) = true := by
        rw [hid]
        exact ha
      rw [if_pos ha']
      refine @List.find?_cons_of_pos _ (fun x => x.id == lid) l' _ ?_
      show (l'.id == lid) = true
      rw [hid]
      simp
    · have ha' : ¬(a.id == l'.id) = true := by
        rw [hid]
        exact ha
      rw [@List.find?_cons_of_neg _ (fun x => x.id == lid) a la ha] at h
      rw [if_neg ha']
      rw [@List.find?_cons_of_neg _ (fun x => x.id == lid) a _ ha]
      exact ih l h

/-- Finding by an identity different from the updated one is unchanged. -/
theorem find?_id_map_set_ne (l' : RosLink) (lid : Nat) (hid : l'.id ≠ lid) (ls : List RosLink) :
    (ls.map (fun x => if x.id == l'.id then l' else x)).find? (fun x => x.id == lid) =
      ls.find? (fun x => x.id == lid) := by
  induction ls with
  | nil => rfl
  | cons a la ih =>
    simp only [List.map_cons]
    by_cases ha : (a.id == l'.id) = true
    · rw [if_pos ha]
      have h1 : ¬(l'.id == lid) = true := by simpa using hid
      have h2 : ¬(a.id == lid) = true := by
        have hae : a.id = l'.id := by simpa using ha
        rw [hae]
        simpa using hid
      rw [@List.find?_cons_of_neg _ (fun x => x.id == lid) l' _ h1,
          @List.find?_cons_of_neg _ (fun x => x.id == lid) a la h2, ih]
    · rw [if_neg ha]
      by_cases hm : (a.id == lid) = true
      · rw [@List.find?_cons_of_pos _ (fun x => x.id == lid) a _ hm,
            @List.find?_cons_of_pos _ (fun x => x.id == lid) a la hm]
      · rw [@List.find?_cons_of_neg _ (fun x => x.id == lid) a _ hm,
            @List.find?_cons_of_neg _ (fun x => x.id == lid) a la hm, ih]

theorem setLink_getLink_self (d : Doc) (l' : RosLink) (lid : Nat) (l : RosLink)
    (hget : d.getLink lid = some l) (hid : l'.id = lid) :
    (d.setLink l').getLink lid = some l' :=
  find?_id_map_set l' lid hid d.links l hget

theorem setLink_getLink_ne (d : Doc) (l' : RosLink) (lid : Nat) (hid : l'.id ≠ lid) :
    (d.setLink l').getLink lid = d.getLink lid :=
  find?_id_map_set_ne l' lid hid d.links

/-- Members of the second list of a pointwise relation come from related
members of the first. -/
theorem forall₂_mem_right {R : RosLink → RosLink → Prop} :
    ∀ {ls₀ ls₁ : List RosLink}, List.Forall₂ R ls₀ ls₁ →
      ∀ b ∈ ls₁, ∃ a ∈ ls₀, R a b := by
  intro ls₀ ls₁ h
  induction h with
  | nil =>
    intro b hb
    cases hb
  | cons hab htail ih =>
    rename_i a b' la lb
    intro b hb
    rcases List.mem_cons.mp hb with rfl | hb'
    · exact ⟨a, List.mem_cons_self _ _, hab⟩
    · obtain ⟨a', ha', hr⟩ := ih b hb'
      exact ⟨a', List.mem_cons_of_mem _ ha', hr⟩

/-- A pass preserves the link identity sequence. -/
theorem forall₂_map_id_eq (n₀ n₁ : Nat) :
    ∀ {ls₀ ls₁ : List RosLink}, List.Forall₂ (LinkExt n₀ n₁) ls₀ ls₁ →
      ls₁.map (fun l => l.id) = ls₀.map (fun l => l.id) := by
  intro ls₀ ls₁ h
  induction h with
  | nil => rfl
  | cons hab htail ih =>
    simp only [List.map_cons]
    rw [hab.1, ih]

/-- A pass preserves core well-formedness. -/
theorem docext_wfCore (d₀ d₁ : Doc) (h : DocExt d₀ d₁) (hwf : d₀.wfCore) : d₁.wfCore := by
  obtain ⟨hfr, hnd, hgl⟩ := hwf
  obtain ⟨hrest, hnle, ⟨new, hpr, hf⟩, hfa⟩ := h
  refine ⟨?_, ?_, ?_⟩
  · intro p hp
    rw [hpr] at hp
    rcases List.mem_append.mp hp with h' | h'
    · exact lt_of_lt_of_le (hfr p h') hnle
    · exact (hf p h').2
  · rw [forall₂_map_id_eq d₀.nextId d₁.nextId hfa]
    exact hnd
  · intro l₁ hl₁ g hg
    obtain ⟨l₀, hl₀, hext⟩ := forall₂_mem_right hfa l₁ hl₁
    obtain ⟨-, -, -, -, -, -, ext, hgr, -, hb⟩ := hext
    rw [hgr] at hg
    rcases List.mem_append.mp hg with h' | h'
    · exact lt_of_lt_of_le (hgl l₀ hl₀ g h') hnle
    · exact (hb g h').2

/-- The document step of one link inside a pass: run `_add_links_lod` on a
resolved link, then store the mutated link. -/
theorem docext_of_add_set (doc : Doc) (lid : Nat) (l : RosLink)
    (objects : List SourceObj) (lod : String) (d' : Doc) (l' : RosLink)
    (ids : List Nat) (new : List LinkProxyObj)
    (hget : doc.getLink lid = some l)
    (hnd : (doc.links.map (fun x => x.id)).Nodup)
    (S : AddLodOut doc l objects lod d' l' ids new) :
    DocExt doc (d'.setLink l') := by
  refine ⟨?_, S.nextId_le, ⟨new, S.proxies_eq, S.new_fresh⟩, ?_⟩
  · show d'.rest = doc.rest
    exact S.rest_eq
  · show List.Forall₂ (LinkExt doc.nextId d'.nextId) doc.links (d'.setLink l').links
    have hlk : (d'.setLink l').links = doc.links.map (fun x => if x.id == l'.id then l' else x) := by
      show d'.links.map _ = _
      rw [S.links_eq]
    rw [hlk, List.forall₂_map_right_iff]
    rw [show (fun (a c : RosLink) => LinkExt doc.nextId d'.nextId a
          (if c.id == l'.id then l' else c)) =
        (fun a c => LinkExt doc.nextId d'.nextId a (if c.id == l'.id then l' else c)) from rfl]
    rw [List.forall₂_same]
    intro x hx
    by_cases hxid : (x.id == l'.id) = true
    · rw [if_pos hxid]
      have hxl : x = l := by
        refine getLink_unique doc lid l hnd hget x hx ?_
        have h1 : x.id = l'.id := by simpa using hxid
        rw [h1, S.id_eq, (getLink_mem doc lid l hget).2]
      subst hxl
      refine ⟨S.id_eq, S.name_eq, S.label_eq, S.real_eq, S.visual_eq, S.collision_eq,
        new.map (fun p => p.id), S.group_eq, S.new_nodup, ?_⟩
      intro g hg
      obtain ⟨q, hq, hqe⟩ := List.mem_map.mp hg
      rw [← hqe]
      exact S.new_fresh q hq
    · rw [if_neg hxid]
      exact linkext_refl _ _ x

/-- Resolve a fresh identity inside the block appended by one step. -/
theorem find?_id_of_mem_nodup :
    ∀ (new : List LinkProxyObj), (new.map (fun p => p.id)).Nodup →
      ∀ p ∈ new, new.find? (fun q => q.id == p.id) = some p := by
  intro new
  induction new with
  | nil =>
    intro _ p hp
    cases hp
  | cons q0 tl ih =>
    intro hnd p hp
    rw [List.map_cons, List.nodup_cons] at hnd
    rcases List.mem_cons.mp hp with rfl | hp'
    · exact @List.find?_cons_of_pos _ (fun q => q.id == p.id) p tl (by simp)
    · have hne : ¬(q0.id == p.id) = true := by
        intro hbe
        have heq : q0.id = p.id := by simpa using hbe
        exact hnd.1 (heq ▸ List.mem_map_of_mem (fun x => x.id) hp')
      rw [@List.find?_cons_of_neg _ (fun q => q.id == p.id) q0 tl hne]
      exact ih hnd.2 p hp'

/-- A true linkage at a fresh identity resolves to one of the proxies the
step created. -/
theorem linksTo_fresh_resolve (doc d₁ : Doc) (new : List LinkProxyObj)
    (hd : d₁.proxies = doc.proxies ++ new)
    (hfr : ∀ q ∈ doc.proxies, q.id < doc.nextId)
    (g oid : Nat) (hg : doc.nextId ≤ g) (hl : d₁.linksTo g oid = true) :
    ∃ p ∈ new, p.id = g ∧ p.linkedObject = some oid := by
  obtain ⟨p, hf, hlk⟩ := (linksTo_iff d₁ g oid).mp hl
  have hpm : p ∈ d₁.proxies := List.mem_of_find?_eq_some hf
  have hpid : p.id = g := by
    have := List.find?_some hf
    simpa using this
  rw [hd] at hpm
  rcases List.mem_append.mp hpm with h' | h'
  · have := hfr p h'
    omega
  · exact ⟨p, h', hpid, hlk⟩

/-- Everything `reset_group` needs about one LOD pass over the links named
by `lids`: how the document evolved, where each returned identity comes
from, that every demanded object is covered, that a uniquely linking old
proxy is reused, and that proxies appended to a link's group during the
pass clash with no old group member and with each other, and are all
returned. -/
structure PassOut (doc : Doc) (lids : List Nat) (pick : RosLink → List SourceObj)
    (d : Doc) (ids : List Nat) : Prop where
  docext : DocExt doc d
  ids_old : ∀ gid ∈ ids, gid < doc.nextId →
      ∃ l₀ ∈ doc.links, l₀.id ∈ lids ∧ gid ∈ l₀.group ∧
        ∃ o ∈ pick l₀, doc.linksTo gid o.id = true
  ids_char : ∀ gid ∈ ids, ∃ lid ∈ lids, ∃ l₀ l₁, doc.getLink lid = some l₀ ∧
      d.getLink lid = some l₁ ∧ gid ∈ l₁.group ∧
      ∃ o ∈ pick l₀, d.linksTo gid o.id = true
  covered : ∀ lid ∈ lids, ∀ l₀, doc.getLink lid = some l₀ → ∀ o ∈ pick l₀,
      ∃ gid ∈ ids, ∃ l₁, d.getLink lid = some l₁ ∧ gid ∈ l₁.group ∧
        d.linksTo gid o.id = true
  selected : ∀ lid ∈ lids, ∀ l₀, doc.getLink lid = some l₀ → ∀ o ∈ pick l₀,
      ∀ pid ∈ l₀.group, doc.linksTo pid o.id = true →
      (∀ g ∈ l₀.group, doc.linksTo g o.id = true → g = pid) → pid ∈ ids
  no_clash : ∀ lid (l₀ l₁ : RosLink), doc.getLink lid = some l₀ → d.getLink lid = some l₁ →
      ∀ g ∈ l₁.group, g ∉ l₀.group → ∀ oid, d.linksTo g oid = true →
      ∀ g₀ ∈ l₀.group, doc.linksTo g₀ oid = false
  ext_inj : ∀ lid (l₀ l₁ : RosLink), doc.getLink lid = some l₀ → d.getLink lid = some l₁ →
      ∀ g₁ ∈ l₁.group, g₁ ∉ l₀.group → ∀ g₂ ∈ l₁.group, g₂ ∉ l₀.group →
      ∀ oid, d.linksTo g₁ oid = true → d.linksTo g₂ oid = true → g₁ = g₂
  ext_in_ids : ∀ lid (l₀ l₁ : RosLink), doc.getLink lid = some l₀ → d.getLink lid = some l₁ →
      ∀ g ∈ l₁.group, g ∉ l₀.group → g ∈ ids

/-- The empty pass changes nothing. -/
theorem pass_nil (doc : Doc) (pick : RosLink → List SourceObj) :
    PassOut doc [] pick doc [] := by
  refine { docext := docext_refl doc, ids_old := by simp, ids_char := by simp,
           covered := by simp, selected := by simp,
           no_clash := ?_, ext_inj := ?_, ext_in_ids := ?_ }
  · intro lid l₀ l₁ h0 h1 g hg hng oid hl g₀ hg₀
    rw [h0] at h1
    cases h1
    exact absurd hg hng
  · intro lid l₀ l₁ h0 h1 g₁ hg₁ hng₁ g₂ hg₂ hng₂ oid hl₁ hl₂
    rw [h0] at h1
    cases h1
    exact absurd hg₁ hng₁
  · intro lid l₀ l₁ h0 h1 g hg hng
    rw [h0] at h1
    cases h1
    exact absurd hg hng

/-- A pass skipping an unresolvable link identity. -/
theorem pass_weaken (doc : Doc) (lid : Nat) (rest : List Nat)
    (pick : RosLink → List SourceObj) (d : Doc) (ids : List Nat)
    (hget : doc.getLink lid = none)
    (P : PassOut doc rest pick d ids) :
    PassOut doc (lid :: rest) pick d ids := by
  refine { docext := P.docext, ids_old := ?_, ids_char := ?_, covered := ?_,
           selected := ?_, no_clash := P.no_clash, ext_inj := P.ext_inj,
           ext_in_ids := P.ext_in_ids }
  · intro gid hg hlt
    obtain ⟨l₀, hl₀, hmem, hgr, o, ho, hlk⟩ := P.ids_old gid hg hlt
    exact ⟨l₀, hl₀, List.mem_cons_of_mem _ hmem, hgr, o, ho, hlk⟩
  · intro gid hg
    obtain ⟨lid', hlid', rest'⟩ := P.ids_char gid hg
    exact ⟨lid', List.mem_cons_of_mem _ hlid', rest'⟩
  · intro lid' hlid' l₀ hget' o ho
    rcases List.mem_cons.mp hlid' with rfl | h
    · rw [hget'] at hget
      cases hget
    · exact P.covered lid' h l₀ hget' o ho
  · intro lid' hlid' l₀ hget' o ho pid hpid hplink huniq
    rcases List.mem_cons.mp hlid' with rfl | h
    · rw [hget'] at hget
      cases hget
    · exact P.selected lid' h l₀ hget' o ho pid hpid hplink huniq

/-- Resolve a member of the appended fresh block. -/
theorem findProxy_append_block (doc d₁ : Doc) (new : List LinkProxyObj)
    (hd : d₁.proxies = doc.proxies ++ new)
    (hfr : ∀ q ∈ doc.proxies, q.id < doc.nextId)
    (hge : ∀ q ∈ new, doc.nextId ≤ q.id)
    (hnd : (new.map (fun p => p.id)).Nodup)
    (p : LinkProxyObj) (hp : p ∈ new) :
    d₁.findProxy p.id = some p := by
  rw [Doc.findProxy, hd, List.find?_append]
  have h1 : doc.proxies.find? (fun q => q.id == p.id) = none := by
    rw [List.find?_eq_none]
    intro q hq hbe
    have hqe : q.id = p.id := by simpa using hbe
    have h2 := hfr q hq
    have h3 := hge p hp
    omega
  rw [h1, find?_id_of_mem_nodup new hnd p hp]
  rfl

/-- Glue one processed link onto the specification of the remainder of the
pass. -/
theorem pass_glue (env : Nat → String → Placement) (lod : String)
    (pick : RosLink → List SourceObj)
    (hpick : ∀ l₀ l₁ : RosLink, l₁.real = l₀.real → l₁.visual = l₀.visual →
      l₁.collision = l₀.collision → pick l₁ = pick l₀)
    (doc : Doc) (lid : Nat) (rest : List Nat) (l : RosLink) (d' : Doc) (l' : RosLink)
    (ids₁ : List Nat) (new : List LinkProxyObj) (d : Doc) (ids₂ : List Nat)
    (hget : doc.getLink lid = some l)
    (hwf : doc.wfCore)
    (S : AddLodOut doc l (pick l) lod d' l' ids₁ new)
    (P2 : PassOut (d'.setLink l') rest pick d ids₂) :
    PassOut doc (lid :: rest) pick d (ids₁ ++ ids₂) := by
  obtain ⟨hfr, hnd, hgl⟩ := hwf
  have hlmem : l ∈ doc.links := (getLink_mem doc lid l hget).1
  have hlid : l.id = lid := (getLink_mem doc lid l hget).2
  have hl'id : l'.id = lid := by rw [S.id_eq, hlid]
  have hgbound : ∀ g ∈ l.group, g < doc.nextId := hgl l hlmem
  have E1 : DocExt doc (d'.setLink l') :=
    docext_of_add_set doc lid l (pick l) lod d' l' ids₁ new hget hnd S
  have E2 : DocExt (d'.setLink l') d := P2.docext
  have E : DocExt doc d := docext_trans _ _ _ E1 E2
  have hd1prox : (d'.setLink l').proxies = doc.proxies ++ new := S.proxies_eq
  have hget1self : (d'.setLink l').getLink lid = some l' := by
    refine setLink_getLink_self d' l' lid l ?_ hl'id
    show d'.links.find? (fun x => x.id == lid) = some l
    rw [S.links_eq]
    exact hget
  have hget1ne : ∀ lid', lid' ≠ lid → (d'.setLink l').getLink lid' = doc.getLink lid' := by
    intro lid' hne
    rw [setLink_getLink_ne d' l' lid' (by rw [hl'id]; exact fun h => hne h.symm)]
    show d'.links.find? (fun x => x.id == lid') = doc.getLink lid'
    rw [S.links_eq]
    rfl
  have hpick' : pick l' = pick l := hpick l l' S.real_eq S.visual_eq S.collision_eq
  have hnewge : ∀ p ∈ new, doc.nextId ≤ p.id := fun p hp => (S.new_fresh p hp).1
  have hnewlt : ∀ p ∈ new, p.id < (d'.setLink l').nextId := fun p hp => (S.new_fresh p hp).2
  have hstab1 : ∀ g, g < doc.nextId → ∀ oid,
      (d'.setLink l').linksTo g oid = doc.linksTo g oid :=
    fun g hg oid => docext_linksTo_lt doc _ E1 g hg oid
  have hstab2 : ∀ g, g < (d'.setLink l').nextId → ∀ oid,
      d.linksTo g oid = (d'.setLink l').linksTo g oid :=
    fun g hg oid => docext_linksTo_lt _ d E2 g hg oid
  have hres : ∀ g oid, doc.nextId ≤ g → (d'.setLink l').linksTo g oid = true →
      ∃ p ∈ new, p.id = g ∧ p.linkedObject = some oid :=
    fun g oid hg hl => linksTo_fresh_resolve doc _ new hd1prox hfr g oid hg hl
  have hgr' : l'.group = l.group ++ new.map (fun p => p.id) := S.group_eq
  refine { docext := E, ids_old := ?_, ids_char := ?_, covered := ?_, selected := ?_,
           no_clash := ?_, ext_inj := ?_, ext_in_ids := ?_ }
  · -- ids_old
    intro gid hg hlt
    rcases List.mem_append.mp hg with h1 | h2
    · obtain ⟨hgm, o, ho, hlk⟩ := S.ids_old gid h1 hlt
      exact ⟨l, hlmem, by rw [hlid]; exact List.mem_cons_self _ _, hgm, o, ho, hlk⟩
    · have hlt1 : gid < (d'.setLink l').nextId := lt_of_lt_of_le hlt E1.2.1
      obtain ⟨l₁, hl₁, hmem, hgr, o, ho, hlk⟩ := P2.ids_old gid h2 hlt1
      obtain ⟨l₀, hl₀, hext⟩ := forall₂_mem_right E1.2.2.2 l₁ hl₁
      obtain ⟨hid, hname, hlabel, hreal, hvis, hcol, ext, hgrp, hnd', hb⟩ := hext
      have hgid0 : gid ∈ l₀.group := by
        rw [hgrp] at hgr
        rcases List.mem_append.mp hgr with h' | h'
        · exact h'
        · have := (hb gid h').1
          omega
      have hpe : pick l₁ = pick l₀ := hpick l₀ l₁ hreal hvis hcol
      rw [hpe] at ho
      refine ⟨l₀, hl₀, by rw [← hid]; exact List.mem_cons_of_mem _ hmem, hgid0, o, ho, ?_⟩
      rw [← hstab1 gid hlt o.id]
      exact hlk
  · -- ids_char
    intro gid hg
    rcases List.mem_append.mp hg with h1 | h2
    · obtain ⟨l₁, hl₁get, hext⟩ := docext_getLink_fwd _ d E2 lid l' hget1self
      have hgidl' : gid ∈ l'.group := S.ids_in_group gid h1
      have hgidl₁ : gid ∈ l₁.group := by
        obtain ⟨-, -, -, -, -, -, ext, hgrp, -, -⟩ := hext
        rw [hgrp]
        exact List.mem_append_left _ hgidl'
      by_cases hlt : gid < doc.nextId
      · obtain ⟨-, o, ho, hlk⟩ := S.ids_old gid h1 hlt
        refine ⟨lid, List.mem_cons_self _ _, l, l₁, hget, hl₁get, hgidl₁, o, ho, ?_⟩
        exact docext_linksTo_some doc d E gid o.id hlk
      · push_neg at hlt
        have hgnew : gid ∈ new.map (fun p => p.id) := by
          rw [hgr'] at hgidl'
          rcases List.mem_append.mp hgidl' with h' | h'
          · exact absurd (hgbound gid h') (by omega)
          · exact h'
        obtain ⟨p, hp, hpid⟩ := List.mem_map.mp hgnew
        obtain ⟨-, -, o, ho, hplink⟩ := S.new_named p hp
        refine ⟨lid, List.mem_cons_self _ _, l, l₁, hget, hl₁get, hgidl₁, o, ho, ?_⟩
        have h₁ : (d'.setLink l').findProxy p.id = some p :=
          findProxy_append_block doc _ new hd1prox hfr hnewge S.new_nodup p hp
        have h₂ : (d'.setLink l').linksTo gid o.id = true := by
          rw [← hpid]
          exact (linksTo_iff _ _ _).mpr ⟨p, h₁, hplink⟩
        exact docext_linksTo_some _ d E2 gid o.id h₂
    · obtain ⟨lid', hlid', l₀', l₁, hget0', hget1, hgm, o, ho, hlk⟩ := P2.ids_char gid h2
      obtain ⟨l₀, hget0, hext⟩ := docext_getLink_bwd doc _ E1 lid' l₀' hget0'
      obtain ⟨-, -, -, hreal, hvis, hcol, -, -, -, -⟩ := hext
      have hpe : pick l₀' = pick l₀ := hpick l₀ l₀' hreal hvis hcol
      rw [hpe] at ho
      exact ⟨lid', List.mem_cons_of_mem _ hlid', l₀, l₁, hget0, hget1, hgm, o, ho, hlk⟩
  · -- covered
    intro lid' hlid' l₀ hget0 o ho
    rcases List.mem_cons.mp hlid' with rfl | hrest
    · rw [hget] at hget0
      injection hget0 with hh
      subst hh
      obtain ⟨gid, hgid1, hlk'⟩ := S.covered o ho
      obtain ⟨l₁, hl₁get, hext⟩ := docext_getLink_fwd _ d E2 lid' l' hget1self
      have hgidl₁ : gid ∈ l₁.group := by
        obtain ⟨-, -, -, -, -, -, ext, hgrp, -, -⟩ := hext
        rw [hgrp]
        exact List.mem_append_left _ (S.ids_in_group gid hgid1)
      refine ⟨gid, List.mem_append_left _ hgid1, l₁, hl₁get, hgidl₁, ?_⟩
      have hlk1 : (d'.setLink l').linksTo gid o.id = true := hlk'
      exact docext_linksTo_some _ d E2 gid o.id hlk1
    · obtain ⟨l₀'', hget0'', hext⟩ := docext_getLink_fwd doc _ E1 lid' l₀ hget0
      obtain ⟨-, -, -, hreal, hvis, hcol, -, -, -, -⟩ := hext
      have hpe : pick l₀'' = pick l₀ := hpick l₀ l₀'' hreal hvis hcol
      obtain ⟨gid, hgid2, l₁, hget1, hgm, hlk⟩ :=
        P2.covered lid' hrest l₀'' hget0'' o (by rw [hpe]; exact ho)
      exact ⟨gid, List.mem_append_right _ hgid2, l₁, hget1, hgm, hlk⟩
  · -- selected
    intro lid' hlid' l₀ hget0 o ho pid hpid hplink huniq
    rcases List.mem_cons.mp hlid' with rfl | hrest
    · rw [hget] at hget0
      injection hget0 with hh
      subst hh
      exact List.mem_append_left _ (S.selected o ho pid hpid hplink huniq)
    · by_cases hll : lid' = lid
      · replace hll := hll.symm
        subst hll
        rw [hget] at hget0
        injection hget0 with hh
        subst hh
        have hpid' : pid ∈ l'.group := by
          rw [hgr']
          exact List.mem_append_left _ hpid
        have hpidlt : pid < doc.nextId := hgbound pid hpid
        have hplink1 : (d'.setLink l').linksTo pid o.id = true := by
          rw [hstab1 pid hpidlt o.id]
          exact hplink
        have huniq1 : ∀ g ∈ l'.group, (d'.setLink l').linksTo g o.id = true → g = pid := by
          intro g hgm hglk
          rw [hgr'] at hgm
          rcases List.mem_append.mp hgm with h' | h'
          · refine huniq g h' ?_
            rw [← hstab1 g (hgbound g h') o.id]
            exact hglk
          · obtain ⟨q, hq, hqid⟩ := List.mem_map.mp h'
            obtain ⟨p2, hp2, hp2id, hp2link⟩ :=
              hres g o.id (by rw [← hqid]; exact hnewge q hq) hglk
            have hcl := S.no_clash p2 hp2 o.id hp2link pid hpid
            rw [hplink] at hcl
            cases hcl
        have hsel := P2.selected lid hrest l' hget1self o
          (by rw [hpick']; exact ho) pid hpid' hplink1 huniq1
        exact List.mem_append_right _ hsel
      · have hget1 : (d'.setLink l').getLink lid' = some l₀ := by
          rw [hget1ne lid' hll]
          exact hget0
        have hl₀mem : l₀ ∈ doc.links := (getLink_mem doc lid' l₀ hget0).1
        have hgb : ∀ g ∈ l₀.group, g < doc.nextId := hgl l₀ hl₀mem
        have hplink1 : (d'.setLink l').linksTo pid o.id = true := by
          rw [hstab1 pid (hgb pid hpid) o.id]
          exact hplink
        have huniq1 : ∀ g ∈ l₀.group, (d'.setLink l').linksTo g o.id = true → g = pid := by
          intro g hgm hglk
          refine huniq g hgm ?_
          rw [← hstab1 g (hgb g hgm) o.id]
          exact hglk
        exact List.mem_append_right _
          (P2.selected lid' hrest l₀ hget1 o ho pid hpid hplink1 huniq1)
  · -- no_clash
    intro lid' l₀ l₁ hget0 hget1 g hgm hng oid hlk g₀ hg₀
    by_cases hll : lid' = lid
    · replace hll := hll.symm
      subst hll
      rw [hget] at hget0
      injection hget0 with hh
      subst hh
      by_cases hgm' : g ∈ l'.group
      · have hgnew : g ∈ new.map (fun p => p.id) := by
          rw [hgr'] at hgm'
          rcases List.mem_append.mp hgm' with h' | h'
          · exact absurd h' hng
          · exact h'
        obtain ⟨q, hq, hqid⟩ := List.mem_map.mp hgnew
        have hglt : g < (d'.setLink l').nextId := by
          rw [← hqid]
          exact hnewlt q hq
        have hlk1 : (d'.setLink l').linksTo g oid = true := by
          rw [← hstab2 g hglt oid]
          exact hlk
        obtain ⟨p2, hp2, hp2id, hp2link⟩ :=
          hres g oid (by rw [← hqid]; exact hnewge q hq) hlk1
        exact S.no_clash p2 hp2 oid hp2link g₀ hg₀
      · have h1 := P2.no_clash lid l' l₁ hget1self hget1 g hgm hgm' oid hlk
        have h2 := h1 g₀ (by rw [hgr']; exact List.mem_append_left _ hg₀)
        rw [hstab1 g₀ (hgbound g₀ hg₀) oid] at h2
        exact h2
    · have hget1' : (d'.setLink l').getLink lid' = some l₀ := by
        rw [hget1ne lid' hll]
        exact hget0
      have hl₀mem : l₀ ∈ doc.links := (getLink_mem doc lid' l₀ hget0).1
      have hgb : ∀ x ∈ l₀.group, x < doc.nextId := hgl l₀ hl₀mem
      have h1 := P2.no_clash lid' l₀ l₁ hget1' hget1 g hgm hng oid hlk g₀ hg₀
      rw [hstab1 g₀ (hgb g₀ hg₀) oid] at h1
      exact h1
  · -- ext_inj
    intro lid' l₀ l₁ hget0 hget1 g₁ hg₁m hng₁ g₂ hg₂m hng₂ oid hl₁ hl₂
    by_cases hll : lid' = lid
    · replace hll := hll.symm
      subst hll
      rw [hget] at hget0
      injection hget0 with hh
      subst hh
      by_cases h1' : g₁ ∈ l'.group <;> by_cases h2' : g₂ ∈ l'.group
      · have hn₁ : g₁ ∈ new.map (fun p => p.id) := by
          rw [hgr'] at h1'
          rcases List.mem_append.mp h1' with h | h
          · exact absurd h hng₁
          · exact h
        have hn₂ : g₂ ∈ new.map (fun p => p.id) := by
          rw [hgr'] at h2'
          rcases List.mem_append.mp h2' with h | h
          · exact absurd h hng₂
          · exact h
        obtain ⟨q₁, hq₁, hq₁id⟩ := List.mem_map.mp hn₁
        obtain ⟨q₂, hq₂, hq₂id⟩ := List.mem_map.mp hn₂
        have hl₁' : (d'.setLink l').linksTo g₁ oid = true := by
          rw [← hstab2 g₁ (by rw [← hq₁id]; exact hnewlt q₁ hq₁) oid]
          exact hl₁
        have hl₂' : (d'.setLink l').linksTo g₂ oid = true := by
          rw [← hstab2 g₂ (by rw [← hq₂id]; exact hnewlt q₂ hq₂) oid]
          exact hl₂
        obtain ⟨p₁, hp₁, hp₁id, hp₁link⟩ :=
          hres g₁ oid (by rw [← hq₁id]; exact hnewge q₁ hq₁) hl₁'
        obtain ⟨p₂, hp₂, hp₂id, hp₂link⟩ :=
          hres g₂ oid (by rw [← hq₂id]; exact hnewge q₂ hq₂) hl₂'
        have hpp : p₁ = p₂ := S.new_inj p₁ hp₁ p₂ hp₂ (by rw [hp₁link, hp₂link])
        rw [← hp₁id, ← hp₂id, hpp]
      · exfalso
        have hl₁' : (d'.setLink l').linksTo g₁ oid = true := by
          have hn₁ : g₁ ∈ new.map (fun p => p.id) := by
            rw [hgr'] at h1'
            rcases List.mem_append.mp h1' with h | h
            · exact absurd h hng₁
            · exact h
          obtain ⟨q₁, hq₁, hq₁id⟩ := List.mem_map.mp hn₁
          rw [← hstab2 g₁ (by rw [← hq₁id]; exact hnewlt q₁ hq₁) oid]
          exact hl₁
        have h := P2.no_clash lid l' l₁ hget1self hget1 g₂ hg₂m h2' oid hl₂ g₁ h1'
        rw [hl₁'] at h
        cases h
      · exfalso
        have hl₂' : (d'.setLink l').linksTo g₂ oid = true := by
          have hn₂ : g₂ ∈ new.map (fun p => p.id) := by
            rw [hgr'] at h2'
            rcases List.mem_append.mp h2' with h | h
            · exact absurd h hng₂
            · exact h
          obtain ⟨q₂, hq₂, hq₂id⟩ := List.mem_map.mp hn₂
          rw [← hstab2 g₂ (by rw [← hq₂id]; exact hnewlt q₂ hq₂) oid]
          exact hl₂
        have h := P2.no_clash lid l' l₁ hget1self hget1 g₁ hg₁m h1' oid hl₁ g₂ h2'
        rw [hl₂'] at h
        cases h
      · exact P2.ext_inj lid l' l₁ hget1self hget1 g₁ hg₁m h1' g₂ hg₂m h2' oid hl₁ hl₂
    · have hget1' : (d'.setLink l').getLink lid' = some l₀ := by
        rw [hget1ne lid' hll]
        exact hget0
      exact P2.ext_inj lid' l₀ l₁ hget1' hget1 g₁ hg₁m hng₁ g₂ hg₂m hng₂ oid hl₁ hl₂
  · -- ext_in_ids
    intro lid' l₀ l₁ hget0 hget1 g hgm hng
    by_cases hll : lid' = lid
    · replace hll := hll.symm
      subst hll
      rw [hget] at hget0
      injection hget0 with hh
      subst hh
      by_cases hgm' : g ∈ l'.group
      · have hgnew : g ∈ new.map (fun p => p.id) := by
          rw [hgr'] at hgm'
          rcases List.mem_append.mp hgm' with h | h
          · exact absurd h hng
          · exact h
        obtain ⟨q, hq, hqid⟩ := List.mem_map.mp hgnew
        refine List.mem_append_left _ ?_
        rw [← hqid]
        exact S.new_in_ids q hq
      · exact List.mem_append_right _ (P2.ext_in_ids lid l' l₁ hget1self hget1 g hgm hgm')
    · have hget1' : (d'.setLink l').getLink lid' = some l₀ := by
        rw [hget1ne lid' hll]
        exact hget0
      exact List.mem_append_right _ (P2.ext_in_ids lid' l₀ l₁ hget1' hget1 g hgm hng)

/-- Master specification of one successful LOD pass. -/
theorem pass_spec (env : Nat → String → Placement) (lod : String)
    (pick : RosLink → List SourceObj)
    (hpick : ∀ l₀ l₁ : RosLink, l₁.real = l₀.real → l₁.visual = l₀.visual →
      l₁.collision = l₀.collision → pick l₁ = pick l₀)
    (lids : List Nat) :
    ∀ (doc d : Doc) (ids : List Nat),
      run_lod_pass env doc lids pick lod = .ok (d, ids) →
      doc.wfCore →
      PassOut doc lids pick d ids := by
  induction lids with
  | nil =>
    intro doc d ids hok hwf
    simp only [run_lod_pass] at hok
    obtain ⟨rfl, rfl⟩ : doc = d ∧ ([] : List Nat) = ids := by simpa using hok
    exact pass_nil doc pick
  | cons lid rest ih =>
    intro doc d ids hok hwf
    cases hget : doc.getLink lid with
    | none =>
      simp only [run_lod_pass, hget] at hok
      exact pass_weaken doc lid rest pick d ids hget (ih doc d ids hok hwf)
    | some l =>
      simp only [run_lod_pass, hget] at hok
      cases hadd : add_links_lod env doc l (pick l) lod with
      | error e =>
        rw [hadd] at hok
        exact absurd hok (by simp)
      | ok t =>
        obtain ⟨d', l', ids₁⟩ := t
        rw [hadd] at hok
        dsimp only at hok
        cases hrec : run_lod_pass env (d'.setLink l') rest pick lod with
        | error e =>
          rw [hrec] at hok
          simp at hok
        | ok t2 =>
          obtain ⟨d₂, ids₂⟩ := t2
          rw [hrec] at hok
          obtain ⟨rfl, rfl⟩ : d₂ = d ∧ ids₁ ++ ids₂ = ids := by simpa using hok
          obtain ⟨new, S⟩ := add_lod_spec env lod (pick l) doc l d' l' ids₁ hadd
            hwf.1 (hwf.2.2 l (getLink_mem doc lid l hget).1)
          have E1 : DocExt doc (d'.setLink l') :=
            docext_of_add_set doc lid l (pick l) lod d' l' ids₁ new hget hwf.2.1 S
          have hwf1 : (d'.setLink l').wfCore := docext_wfCore doc _ E1 hwf
          exact pass_glue env lod pick hpick doc lid rest l d' l' ids₁ new d₂ ids₂
            hget hwf S (ih (d'.setLink l') d₂ ids₂ hrec hwf1)

/-- Per-link deduplication is preserved by one pass. -/
theorem pass_dedup (doc : Doc) (lids : List Nat) (pick : RosLink → List SourceObj)
    (d : Doc) (ids : List Nat) (P : PassOut doc lids pick d ids)
    (hwf : doc.wfCore)
    (lid : Nat) (l₀ l₁ : RosLink)
    (hget0 : doc.getLink lid = some l₀) (hget1 : d.getLink lid = some l₁)
    (hded : ∀ oid g₁ g₂, g₁ ∈ l₀.group → g₂ ∈ l₀.group →
      doc.linksTo g₁ oid = true → doc.linksTo g₂ oid = true → g₁ = g₂) :
    ∀ oid g₁ g₂, g₁ ∈ l₁.group → g₂ ∈ l₁.group →
      d.linksTo g₁ oid = true → d.linksTo g₂ oid = true → g₁ = g₂ := by
  intro oid g₁ g₂ hg₁ hg₂ hl₁ hl₂
  have hl₀mem : l₀ ∈ doc.links := (getLink_mem doc lid l₀ hget0).1
  have hgb : ∀ g ∈ l₀.group, g < doc.nextId := hwf.2.2 l₀ hl₀mem
  have hstab : ∀ g, g < doc.nextId → ∀ x, d.linksTo g x = doc.linksTo g x :=
    fun g hg x => docext_linksTo_lt doc d P.docext g hg x
  by_cases h1 : g₁ ∈ l₀.group <;> by_cases h2 : g₂ ∈ l₀.group
  · refine hded oid g₁ g₂ h1 h2 ?_ ?_
    · rw [← hstab g₁ (hgb g₁ h1) oid]
      exact hl₁
    · rw [← hstab g₂ (hgb g₂ h2) oid]
      exact hl₂
  · exfalso
    have h := P.no_clash lid l₀ l₁ hget0 hget1 g₂ hg₂ h2 oid hl₂ g₁ h1
    have hl₁' : doc.linksTo g₁ oid = true := by
      rw [← hstab g₁ (hgb g₁ h1) oid]
      exact hl₁
    rw [hl₁'] at h
    cases h
  · exfalso
    have h := P.no_clash lid l₀ l₁ hget0 hget1 g₁ hg₁ h1 oid hl₁ g₂ h2
    have hl₂' : doc.linksTo g₂ oid = true := by
      rw [← hstab g₂ (hgb g₂ h2) oid]
      exact hl₂
    rw [hl₂'] at h
    cases h
  · exact P.ext_inj lid l₀ l₁ hget0 hget1 g₁ hg₁ h1 g₂ hg₂ h2 oid hl₁ hl₂

/-- Specification of one guarded LOD pass of reset_group. -/
theorem lod_pass_if_spec (b : Bool) (env : Nat → String → Placement) (lod : String)
    (pick : RosLink → List SourceObj)
    (hpick : ∀ l₀ l₁ : RosLink, l₁.real = l₀.real → l₁.visual = l₀.visual →
      l₁.collision = l₀.collision → pick l₁ = pick l₀)
    (lids : List Nat) (doc d : Doc) (ids : List Nat)
    (hok : lod_pass_if b env doc lids pick lod = .ok (d, ids))
    (hwf : doc.wfCore) :
    DocExt doc d ∧
    (b = true → PassOut doc lids pick d ids) ∧
    (b = false → d = doc ∧ ids = []) := by
  cases b with
  | false =>
    simp only [lod_pass_if, Bool.false_eq_true, if_false] at hok
    obtain ⟨rfl, rfl⟩ : doc = d ∧ ([] : List Nat) = ids := by simpa using hok
    refine ⟨docext_refl doc, ?_, fun _ => ⟨rfl, rfl⟩⟩
    intro h
    simp at h
  | true =>
    simp only [lod_pass_if, if_true] at hok
    have P := pass_spec env lod pick hpick lids doc d ids hok hwf
    refine ⟨P.docext, fun _ => P, ?_⟩
    intro h
    simp at h

/-- Proxies remaining after the removal loop of reset_group. -/
theorem removeFold_proxies (rm : List Nat) :
    ∀ d : Doc, (rm.foldl (fun acc pid => acc.removeObject pid) d).proxies =
      d.proxies.filter (fun p => !rm.contains p.id) := by
  induction rm with
  | nil =>
    intro d
    simp
  | cons x rm ih =>
    intro d
    rw [List.foldl_cons, ih (d.removeObject x)]
    show (d.proxies.filter (fun p => p.id != x)).filter (fun p => !rm.contains p.id) = _
    rw [List.filter_filter]
    refine List.filter_congr ?_
    intro p _
    by_cases h1 : p.id = x
    · have hbe : (p.id == x) = true := by simpa using h1
      have hbe' : (x == p.id) = true := by simpa using h1.symm
      simp [List.contains_cons, hbe, hbe', bne]
      exact fun h => absurd h1 h
    · have hbe : (p.id == x) = false := by simpa using h1
      have hbe' : (x == p.id) = false := by simpa using (Ne.symm h1)
      simp [List.contains_cons, hbe, hbe', bne]
      exact fun _ => h1

/-- Links after the removal loop: identities survive, groups are
filtered. -/
theorem removeFold_links (rm : List Nat) :
    ∀ d : Doc, (rm.foldl (fun acc pid => acc.removeObject pid) d).links =
      d.links.map (fun l => { l with group := l.group.filter (fun g => !rm.contains g) }) := by
  induction rm with
  | nil =>
    intro d
    simp
  | cons x rm ih =>
    intro d
    rw [List.foldl_cons, ih (d.removeObject x)]
    show (d.links.map (fun l => { l with group := l.group.filter (fun g => g != x) })).map _ = _
    rw [List.map_map]
    refine List.map_congr_left ?_
    intro l _
    show ({ l with group := (l.group.filter (fun g => g != x)).filter (fun g => !rm.contains g) } : RosLink) = _
    rw [List.filter_filter]
    have : (l.group.filter (fun a => !rm.contains a && (a != x))) =
        l.group.filter (fun g => !(x :: rm).contains g) := by
      refine List.filter_congr ?_
      intro g _
      by_cases h1 : g = x
      · have hbe : (g == x) = true := by simpa using h1
        have hbe' : (x == g) = true := by simpa using h1.symm
        simp [List.contains_cons, hbe, hbe', bne]
        exact fun h => absurd h1 h
      · have hbe : (g == x) = false := by simpa using h1
        have hbe' : (x == g) = false := by simpa using (Ne.symm h1)
        simp [List.contains_cons, hbe, hbe', bne]
        exact fun _ => h1
    rw [this]

theorem removeFold_nextId (rm : List Nat) :
    ∀ d : Doc, (rm.foldl (fun acc pid => acc.removeObject pid) d).nextId = d.nextId := by
  induction rm with
  | nil => intro d; rfl
  | cons x rm ih => intro d; rw [List.foldl_cons, ih (d.removeObject x)]; rfl

theorem removeFold_rest (rm : List Nat) :
    ∀ d : Doc, (rm.foldl (fun acc pid => acc.removeObject pid) d).rest = d.rest := by
  induction rm with
  | nil => intro d; rfl
  | cons x rm ih => intro d; rw [List.foldl_cons, ih (d.removeObject x)]; rfl

/-- Searching by identity through a filter that only drops other
identities. -/
theorem find?_filter_of_imp (l : List LinkProxyObj) (p q : LinkProxyObj → Bool)
    (h : ∀ a, p a = true → q a = true) :
    (l.filter q).find? p = l.find? p := by
  induction l with
  | nil => rfl
  | cons a l ih =>
    by_cases hq : q a = true
    · rw [List.filter_cons_of_pos hq]
      by_cases hp : p a = true
      · rw [List.find?_cons_of_pos _ hp, List.find?_cons_of_pos _ hp]
      · rw [List.find?_cons_of_neg _ hp, List.find?_cons_of_neg _ hp, ih]
    · have hp : ¬p a = true := fun hpa => hq (h a hpa)
      rw [List.filter_cons_of_neg (by simpa using hq), List.find?_cons_of_neg _ hp, ih]

/-- Resolution after the removal loop. -/
theorem removeFold_findProxy (rm : List Nat) (d : Doc) (pid : Nat) :
    (rm.foldl (fun acc x => acc.removeObject x) d).findProxy pid =
      if pid ∈ rm then none else d.findProxy pid := by
  rw [Doc.findProxy, removeFold_proxies]
  by_cases hm : pid ∈ rm
  · rw [if_pos hm, List.find?_eq_none]
    intro p hp hbe
    have hpe : p.id = pid := by simpa using hbe
    rw [List.mem_filter] at hp
    have hc := hp.2
    rw [hpe] at hc
    simp only [Bool.not_eq_true'] at hc
    simp at hc
    exact hc hm
  · rw [if_neg hm]
    refine find?_filter_of_imp d.proxies _ _ ?_
    intro a ha
    have hae : a.id = pid := by simpa using ha
    rw [hae]
    simp [hm]

/-- Do two proxies carry the same (present) source binding?  Decidable
formulation of a duplicate pair. -/
def linksClash (doc : Doc) (g₁ g₂ : Nat) : Bool :=
  match doc.findProxy g₁, doc.findProxy g₂ with
  | some p₁, some p₂ => p₁.linkedObject.isSome && p₁.linkedObject == p₂.linkedObject
  | _, _ => false

/-- No link owns two distinct proxies bound to the same source object. -/
def Doc.dedupGroups (doc : Doc) : Prop :=
  ∀ l ∈ doc.links, ∀ g₁ ∈ l.group, ∀ g₂ ∈ l.group, g₁ ≠ g₂ → linksClash doc g₁ g₂ = false

/-- The deduplication property in linkage form. -/
theorem dedupGroups_linksTo (doc : Doc) (hd : doc.dedupGroups)
    (l : RosLink) (hl : l ∈ doc.links) :
    ∀ oid g₁ g₂, g₁ ∈ l.group → g₂ ∈ l.group →
      doc.linksTo g₁ oid = true → doc.linksTo g₂ oid = true → g₁ = g₂ := by
  intro oid g₁ g₂ h₁ h₂ hl₁ hl₂
  by_contra hne
  have hcl := hd l hl g₁ h₁ g₂ h₂ hne
  obtain ⟨p₁, hf₁, hlk₁⟩ := (linksTo_iff doc g₁ oid).mp hl₁
  obtain ⟨p₂, hf₂, hlk₂⟩ := (linksTo_iff doc g₂ oid).mp hl₂
  rw [linksClash, hf₁, hf₂] at hcl
  dsimp only at hcl
  rw [hlk₁, hlk₂] at hcl
  simp at hcl

/-- Is the proxy `pid` demanded by some currently enabled LOD flag of the
robot (before reconciliation)? -/
def Robot.demanded (r : Robot) (pid : Nat) : Bool :=
  r.doc.links.any (fun l =>
    l.group.contains pid &&
    ((r.showReal == some true && l.real.any (fun o => r.doc.linksTo pid o.id)) ||
     (r.showVisual == some true && l.visual.any (fun o => r.doc.linksTo pid o.id)) ||
     (r.showCollision == some true && l.collision.any (fun o => r.doc.linksTo pid o.id))))

/-- Decomposition of a successful reset_group call with initialized
flags into its three guarded passes and the removal loop. -/
theorem reset_group_decomp (env : Nat → String → Placement) (r r' : Robot)
    (sr sv sc : Bool)
    (hsr : r.showReal = some sr) (hsv : r.showVisual = some sv)
    (hsc : r.showCollision = some sc)
    (hok : Robot.reset_group env r = .ok r') :
    ∃ (d1 d2 d3 : Doc) (a1 a2 a3 : List Nat),
      lod_pass_if sr env r.doc (r.doc.links.map (fun l => l.id))
        (fun l => l.real) "real" = .ok (d1, a1) ∧
      lod_pass_if sv env d1 (r.doc.links.map (fun l => l.id))
        (fun l => l.visual) "visual" = .ok (d2, a2) ∧
      lod_pass_if sc env d2 (r.doc.links.map (fun l => l.id))
        (fun l => l.collision) "collision" = .ok (d3, a3) ∧
      r' = { r with doc :=
        (((r.doc.links.flatMap (fun l => l.group)).filter
          (fun pid => !((a1 ++ a2 ++ a3).contains pid))).foldl
          (fun acc pid => acc.removeObject pid) d3) } := by
  rw [Robot.reset_group, hsr, hsv, hsc] at hok
  dsimp only at hok
  cases h1 : lod_pass_if sr env r.doc (r.doc.links.map (fun l => l.id))
      (fun l => l.real) "real" with
  | error e =>
    rw [h1] at hok
    simp at hok
  | ok t1 =>
    obtain ⟨d1, a1⟩ := t1
    rw [h1] at hok
    dsimp only at hok
    cases h2 : lod_pass_if sv env d1 (r.doc.links.map (fun l => l.id))
        (fun l => l.visual) "visual" with
    | error e =>
      rw [h2] at hok
      simp at hok
    | ok t2 =>
      obtain ⟨d2, a2⟩ := t2
      rw [h2] at hok
      dsimp only at hok
      cases h3 : lod_pass_if sc env d2 (r.doc.links.map (fun l => l.id))
          (fun l => l.collision) "collision" with
      | error e =>
        rw [h3] at hok
        simp at hok
      | ok t3 =>
        obtain ⟨d3, a3⟩ := t3
        rw [h3] at hok
        dsimp only at hok
        refine ⟨d1, d2, d3, a1, a2, a3, rfl, h2, h3, ?_⟩
        simpa [hsr, hsv, hsc] using hok.symm

/-- A uniquely linking group member of a link survives one pass with its
uniqueness intact. -/
theorem uniq_through_pass (doc : Doc) (lids : List Nat)
    (pick : RosLink → List SourceObj) (d : Doc) (ids : List Nat)
    (P : PassOut doc lids pick d ids) (hwf : doc.wfCore)
    (lid : Nat) (l₀ : RosLink) (hget0 : doc.getLink lid = some l₀)
    (pid oid : Nat) (hpid : pid ∈ l₀.group)
    (hlink : doc.linksTo pid oid = true)
    (huniq : ∀ g ∈ l₀.group, doc.linksTo g oid = true → g = pid) :
    ∃ l₁, d.getLink lid = some l₁ ∧ LinkExt doc.nextId d.nextId l₀ l₁ ∧
      pid ∈ l₁.group ∧ d.linksTo pid oid = true ∧
      ∀ g ∈ l₁.group, d.linksTo g oid = true → g = pid := by
  obtain ⟨l₁, hget1, hext⟩ := docext_getLink_fwd doc d P.docext lid l₀ hget0
  have hl₀mem : l₀ ∈ doc.links := (getLink_mem doc lid l₀ hget0).1
  have hgb : ∀ g ∈ l₀.group, g < doc.nextId := hwf.2.2 l₀ hl₀mem
  have hstab : ∀ g, g < doc.nextId → ∀ x, d.linksTo g x = doc.linksTo g x :=
    fun g hg x => docext_linksTo_lt doc d P.docext g hg x
  obtain ⟨ext, hgr, -, -⟩ := hext.2.2.2.2.2.2
  refine ⟨l₁, hget1, hext, ?_, ?_, ?_⟩
  · rw [hgr]
    exact List.mem_append_left _ hpid
  · rw [hstab pid (hgb pid hpid) oid]
    exact hlink
  · intro g hg hlg
    by_cases hmem : g ∈ l₀.group
    · refine huniq g hmem ?_
      rw [← hstab g (hgb g hmem) oid]
      exact hlg
    · exfalso
      have h := P.no_clash lid l₀ l₁ hget0 hget1 g hg hmem oid hlg pid hpid
      rw [hlink] at h
      cases h

/-- uniq_through_pass lifted over the flag guard of lod_pass_if. -/
theorem uniq_through_guarded (b : Bool) (doc : Doc) (lids : List Nat)
    (pick : RosLink → List SourceObj) (d : Doc) (ids : List Nat)
    (W : DocExt doc d ∧ (b = true → PassOut doc lids pick d ids) ∧
      (b = false → d = doc ∧ ids = []))
    (hwf : doc.wfCore)
    (lid : Nat) (l₀ : RosLink) (hget0 : doc.getLink lid = some l₀)
    (pid oid : Nat) (hpid : pid ∈ l₀.group)
    (hlink : doc.linksTo pid oid = true)
    (huniq : ∀ g ∈ l₀.group, doc.linksTo g oid = true → g = pid) :
    ∃ l₁, d.getLink lid = some l₁ ∧ LinkExt doc.nextId d.nextId l₀ l₁ ∧
      pid ∈ l₁.group ∧ d.linksTo pid oid = true ∧
      ∀ g ∈ l₁.group, d.linksTo g oid = true → g = pid := by
  cases b with
  | false =>
    obtain ⟨hd, -⟩ := W.2.2 rfl
    subst hd
    exact ⟨l₀, hget0, linkext_refl _ _ l₀, hpid, hlink, huniq⟩
  | true =>
    exact uniq_through_pass doc lids pick d ids (W.2.1 rfl) hwf lid l₀ hget0
      pid oid hpid hlink huniq

/-- pass_dedup lifted over the flag guard of lod_pass_if. -/
theorem dedup_through_guarded (b : Bool) (doc : Doc) (lids : List Nat)
    (pick : RosLink → List SourceObj) (d : Doc) (ids : List Nat)
    (W : DocExt doc d ∧ (b = true → PassOut doc lids pick d ids) ∧
      (b = false → d = doc ∧ ids = []))
    (hwf : doc.wfCore)
    (lid : Nat) (l₀ l₁ : RosLink)
    (hget0 : doc.getLink lid = some l₀) (hget1 : d.getLink lid = some l₁)
    (hded : ∀ oid g₁ g₂, g₁ ∈ l₀.group → g₂ ∈ l₀.group →
      doc.linksTo g₁ oid = true → doc.linksTo g₂ oid = true → g₁ = g₂) :
    ∀ oid g₁ g₂, g₁ ∈ l₁.group → g₂ ∈ l₁.group →
      d.linksTo g₁ oid = true → d.linksTo g₂ oid = true → g₁ = g₂ := by
  cases b with
  | false =>
    obtain ⟨hd, -⟩ := W.2.2 rfl
    subst hd
    rw [hget0] at hget1
    cases hget1
    exact hded
  | true =>
    exact pass_dedup doc lids pick d ids (W.2.1 rfl) hwf lid l₀ l₁ hget0 hget1 hded

/-- A proxy linked for an enabled flag is demanded. -/
theorem demanded_of_witness (r : Robot) (pid : Nat) (l : RosLink)
    (hl : l ∈ r.doc.links) (hg : pid ∈ l.group)
    (h : (r.showReal = some true ∧ ∃ o ∈ l.real, r.doc.linksTo pid o.id = true) ∨
         (r.showVisual = some true ∧ ∃ o ∈ l.visual, r.doc.linksTo pid o.id = true) ∨
         (r.showCollision = some true ∧ ∃ o ∈ l.collision, r.doc.linksTo pid o.id = true)) :
    Robot.demanded r pid = true := by
  rw [Robot.demanded, List.any_eq_true]
  refine ⟨l, hl, ?_⟩
  rw [Bool.and_eq_true]
  refine ⟨by simpa using hg, ?_⟩
  rw [Bool.or_eq_true, Bool.or_eq_true]
  rcases h with ⟨hf, o, ho, hlk⟩ | ⟨hf, o, ho, hlk⟩ | ⟨hf, o, ho, hlk⟩
  · refine Or.inl (Or.inl ?_)
    rw [Bool.and_eq_true]
    exact ⟨by simp [hf], List.any_eq_true.mpr ⟨o, ho, hlk⟩⟩
  · refine Or.inl (Or.inr ?_)
    rw [Bool.and_eq_true]
    exact ⟨by simp [hf], List.any_eq_true.mpr ⟨o, ho, hlk⟩⟩
  · refine Or.inr ?_
    rw [Bool.and_eq_true]
    exact ⟨by simp [hf], List.any_eq_true.mpr ⟨o, ho, hlk⟩⟩

/-- A demanded proxy names an owning link, a flagged category and a linked
source object. -/
theorem demanded_elim (r : Robot) (pid : Nat) (h : Robot.demanded r pid = true) :
    ∃ l ∈ r.doc.links, pid ∈ l.group ∧
      ((r.showReal = some true ∧ ∃ o ∈ l.real, r.doc.linksTo pid o.id = true) ∨
       (r.showVisual = some true ∧ ∃ o ∈ l.visual, r.doc.linksTo pid o.id = true) ∨
       (r.showCollision = some true ∧ ∃ o ∈ l.collision, r.doc.linksTo pid o.id = true)) := by
  rw [Robot.demanded, List.any_eq_true] at h
  obtain ⟨l, hl, hb⟩ := h
  rw [Bool.and_eq_true] at hb
  obtain ⟨hg, hor⟩ := hb
  refine ⟨l, hl, by simpa using hg, ?_⟩
  rw [Bool.or_eq_true, Bool.or_eq_true] at hor
  rcases hor with (h1 | h2) | h3
  · rw [Bool.and_eq_true] at h1
    exact Or.inl ⟨by simpa using h1.1, List.any_eq_true.mp h1.2⟩
  · rw [Bool.and_eq_true] at h2
    exact Or.inr (Or.inl ⟨by simpa using h2.1, List.any_eq_true.mp h2.2⟩)
  · rw [Bool.and_eq_true] at h3
    exact Or.inr (Or.inr ⟨by simpa using h3.1, List.any_eq_true.mp h3.2⟩)

theorem mem_contains_true {l : List Nat} {x : Nat} (h : x ∈ l) :
    l.contains x = true := by
  simpa using h

theorem not_mem_contains_false {l : List Nat} {x : Nat} (h : x ∉ l) :
    l.contains x = false := by
  cases hc : l.contains x
  · rfl
  · exact absurd (by simpa using hc) h

theorem not_mem_not_contains {l : List Nat} {x : Nat} (h : x ∉ l) :
    (!(l.contains x)) = true := by
  rw [not_mem_contains_false h]
  rfl

/-- Pull an owning link with a bounded group member back through a
document evolution, keeping the three LOD sequences. -/
theorem link_back_through (d₀ d₁ : Doc) (E : DocExt d₀ d₁)
    (l₁ : RosLink) (hl₁ : l₁ ∈ d₁.links) (pid : Nat) (hpid : pid ∈ l₁.group)
    (hlt : pid < d₀.nextId) :
    ∃ l₀ ∈ d₀.links, pid ∈ l₀.group ∧ l₀.real = l₁.real ∧
      l₀.visual = l₁.visual ∧ l₀.collision = l₁.collision := by
  obtain ⟨l₀, hl₀, hext⟩ := forall₂_mem_right E.2.2.2 l₁ hl₁
  obtain ⟨-, -, -, hre, hvi, hco, ext, hgr, -, hb⟩ := hext
  refine ⟨l₀, hl₀, ?_, hre.symm, hvi.symm, hco.symm⟩
  rw [hgr] at hpid
  rcases List.mem_append.mp hpid with h | h
  · exact h
  · have := hb pid h
    omega

/-- C3: Garbage collection correctness of reset_group.  On a well-formed,
deduplicated robot document with initialized flags, every proxy owned by a
link before the call that is not demanded by any enabled LOD flag no
longer resolves after the call (it was destroyed), while every demanded
proxy resolves exactly as before, is still owned by a link, and is not
duplicated: no other surviving group member of its link binds the same
source object. -/
theorem c3_garbage_collection (env : Nat → String → Placement) (r r' : Robot)
    (pid : Nat) (sr sv sc : Bool)
    (hsr : r.showReal = some sr) (hsv : r.showVisual = some sv)
    (hsc : r.showCollision = some sc)
    (hwf : r.doc.wfCore) (hded : r.doc.dedupGroups)
    (hok : Robot.reset_group env r = .ok r')
    (hpid : pid ∈ r.doc.links.flatMap (fun l => l.group)) :
    (Robot.demanded r pid = false → r'.doc.findProxy pid = none) ∧
    (Robot.demanded r pid = true →
      r'.doc.findProxy pid = r.doc.findProxy pid ∧
      (∃ l' ∈ r'.doc.links, pid ∈ l'.group) ∧
      (∀ l' ∈ r'.doc.links, pid ∈ l'.group → ∀ oid,
        r'.doc.linksTo pid oid = true → ∀ g ∈ l'.group,
        r'.doc.linksTo g oid = true → g = pid)) := by
  obtain ⟨d1, d2, d3, a1, a2, a3, h1, h2, h3, hr'⟩ :=
    reset_group_decomp env r r' sr sv sc hsr hsv hsc hok
  have W1 := lod_pass_if_spec sr env "real" (fun l => l.real)
    (fun _ _ h _ _ => h) (r.doc.links.map (fun l => l.id)) r.doc d1 a1 h1 hwf
  have E01 : DocExt r.doc d1 := W1.1
  have hwf1 : d1.wfCore := docext_wfCore r.doc d1 E01 hwf
  have W2 := lod_pass_if_spec sv env "visual" (fun l => l.visual)
    (fun _ _ _ h _ => h) (r.doc.links.map (fun l => l.id)) d1 d2 a2 h2 hwf1
  have E12 : DocExt d1 d2 := W2.1
  have hwf2 : d2.wfCore := docext_wfCore d1 d2 E12 hwf1
  have W3 := lod_pass_if_spec sc env "collision" (fun l => l.collision)
    (fun _ _ _ _ h => h) (r.doc.links.map (fun l => l.id)) d2 d3 a3 h3 hwf2
  have E23 : DocExt d2 d3 := W3.1
  have hwf3 : d3.wfCore := docext_wfCore d2 d3 E23 hwf2
  have E02 : DocExt r.doc d2 := docext_trans _ _ _ E01 E12
  have E03 : DocExt r.doc d3 := docext_trans _ _ _ E02 E23
  obtain ⟨l, hl, hg⟩ : ∃ l ∈ r.doc.links, pid ∈ l.group := by
    rw [List.mem_flatMap] at hpid
    simpa using hpid
  have hlt : pid < r.doc.nextId := hwf.2.2 l hl pid hg
  have hrd : r'.doc = ((r.doc.links.flatMap (fun x => x.group)).filter
      (fun x => !((a1 ++ a2 ++ a3).contains x))).foldl
      (fun acc x => acc.removeObject x) d3 := by
    rw [hr']
  constructor
  · intro hdem
    have hnot : pid ∉ a1 ++ a2 ++ a3 := by
      intro hmem
      have hdemT : Robot.demanded r pid = true := by
        rcases List.mem_append.mp hmem with hmem' | hm3
        · rcases List.mem_append.mp hmem' with hm1 | hm2
          · cases sr with
            | false =>
              obtain ⟨-, ha⟩ := W1.2.2 rfl
              rw [ha] at hm1
              simp at hm1
            | true =>
              have P1 := W1.2.1 rfl
              obtain ⟨l₀, hl₀, -, hg₀, o, ho, hlk⟩ := P1.ids_old pid hm1 hlt
              exact demanded_of_witness r pid l₀ hl₀ hg₀ (Or.inl ⟨hsr, o, ho, hlk⟩)
          · cases sv with
            | false =>
              obtain ⟨-, ha⟩ := W2.2.2 rfl
              rw [ha] at hm2
              simp at hm2
            | true =>
              have P2 := W2.2.1 rfl
              have hlt1 : pid < d1.nextId := by
                have := E01.2.1
                omega
              obtain ⟨l₁, hl₁, -, hg₁, o, ho, hlk⟩ := P2.ids_old pid hm2 hlt1
              obtain ⟨l₀, hl₀, hg₀, -, hvi, -⟩ :=
                link_back_through r.doc d1 E01 l₁ hl₁ pid hg₁ hlt
              have hlk0 : r.doc.linksTo pid o.id = true := by
                rw [← docext_linksTo_lt r.doc d1 E01 pid hlt o.id]
                exact hlk
              exact demanded_of_witness r pid l₀ hl₀ hg₀
                (Or.inr (Or.inl ⟨hsv, o, by rw [hvi]; exact ho, hlk0⟩))
        · cases sc with
          | false =>
            obtain ⟨-, ha⟩ := W3.2.2 rfl
            rw [ha] at hm3
            simp at hm3
          | true =>
            have P3 := W3.2.1 rfl
            have hlt2 : pid < d2.nextId := by
              have ha := E01.2.1
              have hb := E12.2.1
              omega
            obtain ⟨l₂, hl₂, -, hg₂, o, ho, hlk⟩ := P3.ids_old pid hm3 hlt2
            obtain ⟨l₀, hl₀, hg₀, -, -, hco⟩ :=
              link_back_through r.doc d2 E02 l₂ hl₂ pid hg₂ hlt
            have hlk0 : r.doc.linksTo pid o.id = true := by
              rw [← docext_linksTo_lt r.doc d2 E02 pid hlt o.id]
              exact hlk
            exact demanded_of_witness r pid l₀ hl₀ hg₀
              (Or.inr (Or.inr ⟨hsc, o, by rw [hco]; exact ho, hlk0⟩))
      rw [hdem] at hdemT
      cases hdemT
    have hrm : pid ∈ (r.doc.links.flatMap (fun x => x.group)).filter
        (fun x => !((a1 ++ a2 ++ a3).contains x)) := by
      refine List.mem_filter.mpr ⟨hpid, ?_⟩
      exact not_mem_not_contains hnot
    rw [hrd, removeFold_findProxy, if_pos hrm]
  · intro hdem
    obtain ⟨lw, hlw, hgw, hcase⟩ := demanded_elim r pid hdem
    have hget0w : r.doc.getLink lw.id = some lw := mem_getLink_self r.doc hwf.2.1 lw hlw
    have hlidw : lw.id ∈ r.doc.links.map (fun x => x.id) := List.mem_map_of_mem _ hlw
    have hin : pid ∈ a1 ++ a2 ++ a3 := by
      rcases hcase with ⟨hfl, o, ho, hlk⟩ | ⟨hfl, o, ho, hlk⟩ | ⟨hfl, o, ho, hlk⟩
      · have hsrT : sr = true := Option.some.inj (hsr.symm.trans hfl)
        have P1 := W1.2.1 hsrT
        have huniqsel : ∀ g ∈ lw.group, r.doc.linksTo g o.id = true → g = pid :=
          fun g hgm hglk' => dedupGroups_linksTo r.doc hded lw hlw o.id g pid hgm hgw hglk' hlk
        exact List.mem_append_left _ (List.mem_append_left _
          (P1.selected lw.id hlidw lw hget0w o ho pid hgw hlk huniqsel))
      · have hsvT : sv = true := Option.some.inj (hsv.symm.trans hfl)
        have huniqsel : ∀ g ∈ lw.group, r.doc.linksTo g o.id = true → g = pid :=
          fun g hgm hglk' => dedupGroups_linksTo r.doc hded lw hlw o.id g pid hgm hgw hglk' hlk
        obtain ⟨lw1, hget1w, hext1, hg1, hlk1, huniq1⟩ :=
          uniq_through_guarded sr r.doc (r.doc.links.map (fun x => x.id)) (fun x => x.real)
            d1 a1 W1 hwf lw.id lw hget0w pid o.id hgw hlk huniqsel
        have P2 := W2.2.1 hsvT
        have hvis1 : lw1.visual = lw.visual := hext1.2.2.2.2.1
        refine List.mem_append_left _ (List.mem_append_right _ ?_)
        exact P2.selected lw.id hlidw lw1 hget1w o
          (show o ∈ lw1.visual by rw [hvis1]; exact ho) pid hg1 hlk1 huniq1
      · have hscT : sc = true := Option.some.inj (hsc.symm.trans hfl)
        have huniqsel : ∀ g ∈ lw.group, r.doc.linksTo g o.id = true → g = pid :=
          fun g hgm hglk' => dedupGroups_linksTo r.doc hded lw hlw o.id g pid hgm hgw hglk' hlk
        obtain ⟨lw1, hget1w, hext1, hg1, hlk1, huniq1⟩ :=
          uniq_through_guarded sr r.doc (r.doc.links.map (fun x => x.id)) (fun x => x.real)
            d1 a1 W1 hwf lw.id lw hget0w pid o.id hgw hlk huniqsel
        obtain ⟨lw2, hget2w, hext2, hg2, hlk2, huniq2⟩ :=
          uniq_through_guarded sv d1 (r.doc.links.map (fun x => x.id)) (fun x => x.visual)
            d2 a2 W2 hwf1 lw.id lw1 hget1w pid o.id hg1 hlk1 huniq1
        have P3 := W3.2.1 hscT
        have hco2 : lw2.collision = lw.collision :=
          hext2.2.2.2.2.2.1.trans hext1.2.2.2.2.2.1
        refine List.mem_append_right _ ?_
        exact P3.selected lw.id hlidw lw2 hget2w o
          (show o ∈ lw2.collision by rw [hco2]; exact ho) pid hg2 hlk2 huniq2
    have hnrm : pid ∉ (r.doc.links.flatMap (fun x => x.group)).filter
        (fun x => !((a1 ++ a2 ++ a3).contains x)) := by
      intro hmem
      simp only [List.mem_filter] at hmem
      have h2 := hmem.2
      simp only [Bool.not_eq_true'] at h2
      rw [mem_contains_true hin] at h2
      cases h2
    refine ⟨?_, ?_, ?_⟩
    · rw [hrd, removeFold_findProxy, if_neg hnrm]
      exact docext_findProxy_lt r.doc d3 E03 pid hlt
    · obtain ⟨l3, hget3, hext03⟩ := docext_getLink_fwd r.doc d3 E03 lw.id lw hget0w
      have hl3 : l3 ∈ d3.links := (getLink_mem d3 lw.id l3 hget3).1
      have hg3 : pid ∈ l3.group := by
        obtain ⟨ext, hgr, -, -⟩ := hext03.2.2.2.2.2.2
        rw [hgr]
        exact List.mem_append_left _ hgw
      rw [hrd, removeFold_links]
      refine ⟨_, List.mem_map_of_mem _ hl3, ?_⟩
      refine List.mem_filter.mpr ⟨hg3, ?_⟩
      exact not_mem_not_contains hnrm
    · intro l' hl' hpidg oid hplk g hgmem hglk
      rw [hrd, removeFold_links] at hl'
      obtain ⟨l3', hl3', rfl⟩ := List.mem_map.mp hl'
      simp only [List.mem_filter] at hpidg hgmem
      have hgnin : g ∉ (r.doc.links.flatMap (fun x => x.group)).filter
          (fun x => !((a1 ++ a2 ++ a3).contains x)) := by
        have h2 := hgmem.2
        intro hmem
        simp only [Bool.not_eq_true'] at h2
        rw [mem_contains_true hmem] at h2
        cases h2
      have hglk3 : d3.linksTo g oid = true := by
        have hc : r'.doc.findProxy g = d3.findProxy g := by
          rw [hrd, removeFold_findProxy, if_neg hgnin]
        rw [← linksTo_congr r'.doc d3 g oid hc]
        exact hglk
      have hplk3 : d3.linksTo pid oid = true := by
        have hc : r'.doc.findProxy pid = d3.findProxy pid := by
          rw [hrd, removeFold_findProxy, if_neg hnrm]
        rw [← linksTo_congr r'.doc d3 pid oid hc]
        exact hplk
      have hget3' : d3.getLink l3'.id = some l3' := mem_getLink_self d3 hwf3.2.1 l3' hl3'
      obtain ⟨l2', hget2', -⟩ := docext_getLink_bwd d2 d3 E23 l3'.id l3' hget3'
      obtain ⟨l1', hget1', -⟩ := docext_getLink_bwd d1 d2 E12 l3'.id l2' hget2'
      obtain ⟨l0', hget0', -⟩ := docext_getLink_bwd r.doc d1 E01 l3'.id l1' hget1'
      have ded0 := dedupGroups_linksTo r.doc hded l0' (getLink_mem r.doc l3'.id l0' hget0').1
      have ded1 := dedup_through_guarded sr r.doc (r.doc.links.map (fun x => x.id))
        (fun x => x.real) d1 a1 W1 hwf l3'.id l0' l1' hget0' hget1' ded0
      have ded2 := dedup_through_guarded sv d1 (r.doc.links.map (fun x => x.id))
        (fun x => x.visual) d2 a2 W2 hwf1 l3'.id l1' l2' hget1' hget2' ded1
      have ded3 := dedup_through_guarded sc d2 (r.doc.links.map (fun x => x.id))
        (fun x => x.collision) d3 a3 W3 hwf2 l3'.id l2' l3' hget2' hget3' ded2
      exact ded3 oid g pid hgmem.1 hpidg.1 hglk3 hplk3

def c3_obj : SourceObj := { id := 100, name := "base", parents := [(50, "s")] }

/-- A live proxy bound to c3_obj. -/
def c3_p7 : LinkProxyObj :=
  { id := 7, name := "real_link000", label := "real_link000",
    linkedObject := some 100, linkPlacement := Placement.identity }

/-- A stale proxy bound to a source object that is gone. -/
def c3_p8 : LinkProxyObj :=
  { id := 8, name := "real_link000", label := "real_link000",
    linkedObject := some 200, linkPlacement := Placement.identity }

def c3_link : RosLink :=
  { id := 1, name := "link", label := "link", group := [7, 8],
    real := [c3_obj], visual := [], collision := [] }

def c3_robot : Robot :=
  { doc := { proxies := [c3_p7, c3_p8], links := [c3_link], rest := [], nextId := 9 },
    showReal := some true, showVisual := some false, showCollision := some false,
    type := "Ros::Robot", previous_link_count := 0 }

def c3_link' : RosLink := { c3_link with group := [7] }

def c3_doc' : Doc := { proxies := [c3_p7], links := [c3_link'], rest := [], nextId := 9 }

def c3_robot' : Robot := { c3_robot with doc := c3_doc' }

theorem c3_garbage_collection_witness :
    c3_robot.doc.wfCore ∧ c3_robot.doc.dedupGroups ∧
    Robot.reset_group envId c3_robot = .ok c3_robot' ∧
    Robot.demanded c3_robot 8 = false ∧ c3_robot'.doc.findProxy 8 = none ∧
    Robot.demanded c3_robot 7 = true ∧
    c3_robot'.doc.findProxy 7 = c3_robot.doc.findProxy 7 ∧
    (∃ l' ∈ c3_robot'.doc.links, 7 ∈ l'.group) :=
  ⟨by unfold Doc.wfCore; decide, by unfold Doc.dedupGroups; decide, rfl,
   by decide,
   (c3_garbage_collection envId c3_robot c3_robot' 8 true false false rfl rfl rfl
     (by unfold Doc.wfCore; decide) (by unfold Doc.dedupGroups; decide) rfl
     (by decide)).1 (by decide),
   by decide,
   ((c3_garbage_collection envId c3_robot c3_robot' 7 true false false rfl rfl rfl
     (by unfold Doc.wfCore; decide) (by unfold Doc.dedupGroups; decide) rfl
     (by decide)).2 (by decide)).1,
   ((c3_garbage_collection envId c3_robot c3_robot' 7 true false false rfl rfl rfl
     (by unfold Doc.wfCore; decide) (by unfold Doc.dedupGroups; decide) rfl
     (by decide)).2 (by decide)).2.1⟩

theorem not_contains_not_mem {l : List Nat} {x : Nat} (h : (!(l.contains x)) = true) :
    x ∉ l := by
  intro hmem
  rw [mem_contains_true hmem] at h
  cases h

/-- After a successful reset_group with initialized flags on a well-formed
deduplicated document, every surviving link owns at most one proxy bound
to any given source object. -/
theorem dedup_after_reset (env : Nat → String → Placement) (r r' : Robot)
    (sr sv sc : Bool)
    (hsr : r.showReal = some sr) (hsv : r.showVisual = some sv)
    (hsc : r.showCollision = some sc)
    (hwf : r.doc.wfCore) (hded : r.doc.dedupGroups)
    (hok : Robot.reset_group env r = .ok r') :
    ∀ l' ∈ r'.doc.links, ∀ oid g₁ g₂, g₁ ∈ l'.group → g₂ ∈ l'.group →
      r'.doc.linksTo g₁ oid = true → r'.doc.linksTo g₂ oid = true → g₁ = g₂ := by
  obtain ⟨d1, d2, d3, a1, a2, a3, h1, h2, h3, hr'⟩ :=
    reset_group_decomp env r r' sr sv sc hsr hsv hsc hok
  have W1 := lod_pass_if_spec sr env "real" (fun l => l.real)
    (fun _ _ h _ _ => h) (r.doc.links.map (fun l => l.id)) r.doc d1 a1 h1 hwf
  have hwf1 : d1.wfCore := docext_wfCore r.doc d1 W1.1 hwf
  have W2 := lod_pass_if_spec sv env "visual" (fun l => l.visual)
    (fun _ _ _ h _ => h) (r.doc.links.map (fun l => l.id)) d1 d2 a2 h2 hwf1
  have hwf2 : d2.wfCore := docext_wfCore d1 d2 W2.1 hwf1
  have W3 := lod_pass_if_spec sc env "collision" (fun l => l.collision)
    (fun _ _ _ _ h => h) (r.doc.links.map (fun l => l.id)) d2 d3 a3 h3 hwf2
  have hwf3 : d3.wfCore := docext_wfCore d2 d3 W3.1 hwf2
  have hrd : r'.doc = ((r.doc.links.flatMap (fun x => x.group)).filter
      (fun x => !((a1 ++ a2 ++ a3).contains x))).foldl
      (fun acc x => acc.removeObject x) d3 := by
    rw [hr']
  intro l' hl' oid g₁ g₂ hg₁ hg₂ hlk₁ hlk₂
  rw [hrd, removeFold_links] at hl'
  obtain ⟨l3', hl3', rfl⟩ := List.mem_map.mp hl'
  simp only [List.mem_filter] at hg₁ hg₂
  have hnin₁ := not_contains_not_mem hg₁.2
  have hnin₂ := not_contains_not_mem hg₂.2
  have hlk₁3 : d3.linksTo g₁ oid = true := by
    have hc : r'.doc.findProxy g₁ = d3.findProxy g₁ := by
      rw [hrd, removeFold_findProxy, if_neg hnin₁]
    rw [← linksTo_congr r'.doc d3 g₁ oid hc]
    exact hlk₁
  have hlk₂3 : d3.linksTo g₂ oid = true := by
    have hc : r'.doc.findProxy g₂ = d3.findProxy g₂ := by
      rw [hrd, removeFold_findProxy, if_neg hnin₂]
    rw [← linksTo_congr r'.doc d3 g₂ oid hc]
    exact hlk₂
  have hget3' : d3.getLink l3'.id = some l3' := mem_getLink_self d3 hwf3.2.1 l3' hl3'
  obtain ⟨l2', hget2', -⟩ := docext_getLink_bwd d2 d3 W3.1 l3'.id l3' hget3'
  obtain ⟨l1', hget1', -⟩ := docext_getLink_bwd d1 d2 W2.1 l3'.id l2' hget2'
  obtain ⟨l0', hget0', -⟩ := docext_getLink_bwd r.doc d1 W1.1 l3'.id l1' hget1'
  have ded0 := dedupGroups_linksTo r.doc hded l0' (getLink_mem r.doc l3'.id l0' hget0').1
  have ded1 := dedup_through_guarded sr r.doc (r.doc.links.map (fun x => x.id))
    (fun x => x.real) d1 a1 W1 hwf l3'.id l0' l1' hget0' hget1' ded0
  have ded2 := dedup_through_guarded sv d1 (r.doc.links.map (fun x => x.id))
    (fun x => x.visual) d2 a2 W2 hwf1 l3'.id l1' l2' hget1' hget2' ded1
  have ded3 := dedup_through_guarded sc d2 (r.doc.links.map (fun x => x.id))
    (fun x => x.collision) d3 a3 W3 hwf2 l3'.id l2' l3' hget2' hget3' ded2
  exact ded3 oid g₁ g₂ hg₁.1 hg₂.1 hlk₁3 hlk₂3

/-- C5: Deduplication invariant of reset_group.  After a successful call
on a well-formed deduplicated robot document with initialized flags, each
surviving link owns at most one proxy referencing any given source object,
regardless of which LOD flags were enabled and of the category the object
appears in; and the reuse lookup `_existing_link` decides by the source
object's identity alone, never by its name or other attributes. -/
theorem c5_dedup_invariant (env : Nat → String → Placement) (r r' : Robot)
    (sr sv sc : Bool)
    (hsr : r.showReal = some sr) (hsv : r.showVisual = some sv)
    (hsc : r.showCollision = some sc)
    (hwf : r.doc.wfCore) (hded : r.doc.dedupGroups)
    (hok : Robot.reset_group env r = .ok r') :
    (∀ l' ∈ r'.doc.links, ∀ oid g₁ g₂, g₁ ∈ l'.group → g₂ ∈ l'.group →
      r'.doc.linksTo g₁ oid = true → r'.doc.linksTo g₂ oid = true → g₁ = g₂) ∧
    (∀ (doc : Doc) (link : RosLink) (o o' : SourceObj), o.id = o'.id →
      existing_link doc link o = existing_link doc link o') :=
  ⟨dedup_after_reset env r r' sr sv sc hsr hsv hsc hwf hded hok,
   fun doc link o o' h => existing_link_go_id_congr doc o o' h link.group⟩

def c5_obj : SourceObj := { id := 100, name := "base", parents := [(50, "s")] }

def c5_link : RosLink :=
  { id := 1, name := "link", label := "link", group := [],
    real := [c5_obj], visual := [c5_obj], collision := [] }

def c5_robot : Robot :=
  { doc := { proxies := [], links := [c5_link], rest := [], nextId := 5 },
    showReal := some true, showVisual := some true, showCollision := some false,
    type := "Ros::Robot", previous_link_count := 0 }

/-- The proxy the real pass creates for c5_obj; the visual pass reuses it. -/
def c5_p5 : LinkProxyObj :=
  { id := 5, name := "real_link000", label := "real_link000",
    linkedObject := some 100, linkPlacement := Placement.identity }

def c5_link' : RosLink := { c5_link with group := [5] }

def c5_doc' : Doc := { proxies := [c5_p5], links := [c5_link'], rest := [], nextId := 6 }

def c5_robot' : Robot := { c5_robot with doc := c5_doc' }

theorem c5_dedup_invariant_witness :
    c5_robot.doc.wfCore ∧ c5_robot.doc.dedupGroups ∧
    Robot.reset_group envId c5_robot = .ok c5_robot' ∧
    (∀ l' ∈ c5_robot'.doc.links, ∀ oid g₁ g₂, g₁ ∈ l'.group → g₂ ∈ l'.group →
      c5_robot'.doc.linksTo g₁ oid = true → c5_robot'.doc.linksTo g₂ oid = true →
      g₁ = g₂) :=
  ⟨by unfold Doc.wfCore; decide, by unfold Doc.dedupGroups; decide, rfl,
   (c5_dedup_invariant envId c5_robot c5_robot' true true false rfl rfl rfl
     (by unfold Doc.wfCore; decide) (by unfold Doc.dedupGroups; decide) rfl).1⟩

theorem linkext_group_sub (n₀ n₁ : Nat) (l₀ l₁ : RosLink) (h : LinkExt n₀ n₁ l₀ l₁) :
    ∀ g ∈ l₀.group, g ∈ l₁.group := by
  obtain ⟨-, -, -, -, -, -, ext, hgr, -, -⟩ := h
  intro g hg
  rw [hgr]
  exact List.mem_append_left _ hg

/-- Writing back an unmodified link leaves the document unchanged. -/
theorem setLink_self (doc : Doc) (hnd : (doc.links.map (fun x => x.id)).Nodup)
    (l : RosLink) (hl : l ∈ doc.links) : doc.setLink l = doc := by
  have hmap : doc.links.map (fun x => if x.id == l.id then l else x) =
      doc.links.map id := by
    refine List.map_congr_left ?_
    intro x hx
    by_cases hxe : x.id = l.id
    · have hxl : x = l := List.inj_on_of_nodup_map hnd hx hl (by rw [hxe])
      simp [hxl]
    · simp [hxe]
  rw [Doc.setLink, hmap, List.map_id]

/-- The removal loop preserves core well-formedness. -/
theorem removeFold_wfCore (rm : List Nat) (d : Doc) (hwf : d.wfCore) :
    (rm.foldl (fun acc x => acc.removeObject x) d).wfCore := by
  refine ⟨?_, ?_, ?_⟩
  · intro p hp
    rw [removeFold_proxies] at hp
    rw [removeFold_nextId]
    exact hwf.1 p (List.mem_filter.mp hp).1
  · rw [removeFold_links]
    have hmap : ((d.links.map (fun l => { l with
        group := l.group.filter (fun g => !rm.contains g) })).map (fun x => x.id)) =
        d.links.map (fun x => x.id) := by
      rw [List.map_map]
      rfl
    rw [hmap]
    exact hwf.2.1
  · intro l hl g hg
    rw [removeFold_links] at hl
    obtain ⟨l₀, hl₀, rfl⟩ := List.mem_map.mp hl
    rw [removeFold_nextId]
    exact hwf.2.2 l₀ hl₀ g (List.mem_filter.mp hg).1

/-- The `_existing_link` scan succeeds when some group member links to the
object. -/
theorem existing_link_some_of_linksTo (doc : Doc) (o : SourceObj) (gids : List Nat)
    (gid : Nat) (hg : gid ∈ gids) (hlk : doc.linksTo gid o.id = true) :
    ∃ g, existing_link_go doc o gids = some g := by
  cases hc : existing_link_go doc o gids with
  | some g => exact ⟨g, rfl⟩
  | none =>
    rw [existing_link_go_eq_none_iff] at hc
    rw [hc gid hg] at hlk
    cases hlk

/-- `_add_links_lod` over objects that all already have a proxy: the
document and the link are unchanged and exactly the existing identities
are returned. -/
theorem add_lod_all_found (env : Nat → String → Placement) (doc : Doc) (link : RosLink)
    (lod : String) :
    ∀ objects : List SourceObj,
    (∀ o ∈ objects, ∃ g, existing_link doc link o = some g) →
    ∃ ids, add_links_lod env doc link objects lod = .ok (doc, link, ids) ∧
      ∀ o ∈ objects, ∀ g, existing_link doc link o = some g → g ∈ ids := by
  intro objects
  induction objects with
  | nil =>
    intro h
    exact ⟨[], rfl, by simp⟩
  | cons o rest ih =>
    intro h
    obtain ⟨g, hg⟩ := h o (List.mem_cons_self o rest)
    obtain ⟨ids, hok, hchar⟩ := ih (fun o' ho' => h o' (List.mem_cons_of_mem _ ho'))
    refine ⟨g :: ids, ?_, ?_⟩
    · rw [add_links_lod_cons_found env doc link o rest lod g hg, hok]
    · intro o' ho' g' hg'
      rcases List.mem_cons.mp ho' with rfl | ho'
      · rw [hg] at hg'
        cases hg'
        exact List.mem_cons_self _ _
      · exact List.mem_cons_of_mem _ (hchar o' ho' g' hg')

/-- A whole LOD pass over a saturated document: nothing changes and the
returned identities contain every existing-link result. -/
theorem pass_all_found (env : Nat → String → Placement) (lod : String)
    (pick : RosLink → List SourceObj) :
    ∀ (lids : List Nat) (doc : Doc),
    (doc.links.map (fun x => x.id)).Nodup →
    (∀ lid ∈ lids, ∀ l, doc.getLink lid = some l → ∀ o ∈ pick l,
      ∃ g, existing_link doc l o = some g) →
    ∃ ids, run_lod_pass env doc lids pick lod = .ok (doc, ids) ∧
      ∀ lid ∈ lids, ∀ l, doc.getLink lid = some l → ∀ o ∈ pick l, ∀ g,
        existing_link doc l o = some g → g ∈ ids := by
  intro lids
  induction lids with
  | nil =>
    intro doc hnd h
    exact ⟨[], rfl, by simp⟩
  | cons lid rest ih =>
    intro doc hnd h
    obtain ⟨ids₂, hok₂, hchar₂⟩ := ih doc hnd
      (fun lid' h' => h lid' (List.mem_cons_of_mem _ h'))
    cases hget : doc.getLink lid with
    | none =>
      refine ⟨ids₂, ?_, ?_⟩
      · simp only [run_lod_pass]
        rw [hget]
        exact hok₂
      · intro lid' hlid' l hget' o ho g hg
        rcases List.mem_cons.mp hlid' with rfl | hlid'
        · rw [hget'] at hget
          cases hget
        · exact hchar₂ lid' hlid' l hget' o ho g hg
    | some l =>
      have hmem := (getLink_mem doc lid l hget).1
      obtain ⟨ids₁, hok₁, hchar₁⟩ := add_lod_all_found env doc l lod (pick l)
        (h lid (List.mem_cons_self _ _) l hget)
      refine ⟨ids₁ ++ ids₂, ?_, ?_⟩
      · simp only [run_lod_pass]
        rw [hget]
        dsimp only
        rw [hok₁]
        dsimp only
        rw [setLink_self doc hnd l hmem, hok₂]
      · intro lid' hlid' l' hget' o ho g hg
        rcases List.mem_cons.mp hlid' with rfl | hlid'
        · have hll : l' = l := by
            rw [hget] at hget'
            exact (Option.some.inj hget').symm
          subst hll
          exact List.mem_append_left _ (hchar₁ o ho g hg)
        · exact List.mem_append_right _ (hchar₂ lid' hlid' l' hget' o ho g hg)

/-- ext_in_ids of a pass lifted over the flag guard. -/
theorem ext_in_ids_guarded (b : Bool) (doc : Doc) (lids : List Nat)
    (pick : RosLink → List SourceObj) (d : Doc) (ids : List Nat)
    (W : DocExt doc d ∧ (b = true → PassOut doc lids pick d ids) ∧
      (b = false → d = doc ∧ ids = []))
    (lid : Nat) (l₀ l₁ : RosLink)
    (hget0 : doc.getLink lid = some l₀) (hget1 : d.getLink lid = some l₁) :
    ∀ g ∈ l₁.group, g ∉ l₀.group → g ∈ ids := by
  cases b with
  | false =>
    obtain ⟨hd, -⟩ := W.2.2 rfl
    subst hd
    rw [hget0] at hget1
    cases hget1
    intro g hg hng
    exact absurd hg hng
  | true =>
    exact (W.2.1 rfl).ext_in_ids lid l₀ l₁ hget0 hget1

/-- C4: reset_group is idempotent.  For any robot whose document is
well-formed and deduplicated, a successful reset_group call reaches a
fixpoint: calling reset_group again on the result succeeds and returns the
result unchanged — the same proxy set (same records, hence same names,
source bindings and placements), with no proxy created and none destroyed.
Uninitialized flags make both calls no-ops. -/
theorem c4_reset_group_idempotent (env : Nat → String → Placement) (r r' : Robot)
    (hwf : r.doc.wfCore) (hded : r.doc.dedupGroups)
    (hok : Robot.reset_group env r = .ok r') :
    Robot.reset_group env r' = .ok r' := by
  cases hsr : r.showReal with
  | none =>
    have hid : Robot.reset_group env r = .ok r := by
      rw [Robot.reset_group, hsr]
    have hrr : r = r' := Except.ok.inj (hid.symm.trans hok)
    subst hrr
    exact hid
  | some sr =>
  cases hsv : r.showVisual with
  | none =>
    have hid : Robot.reset_group env r = .ok r := by
      rw [Robot.reset_group, hsr, hsv]
    have hrr : r = r' := Except.ok.inj (hid.symm.trans hok)
    subst hrr
    exact hid
  | some sv =>
  cases hsc : r.showCollision with
  | none =>
    have hid : Robot.reset_group env r = .ok r := by
      rw [Robot.reset_group, hsr, hsv, hsc]
    have hrr : r = r' := Except.ok.inj (hid.symm.trans hok)
    subst hrr
    exact hid
  | some sc =>
  obtain ⟨d1, d2, d3, a1, a2, a3, h1, h2, h3, hr'⟩ :=
    reset_group_decomp env r r' sr sv sc hsr hsv hsc hok
  have W1 := lod_pass_if_spec sr env "real" (fun l => l.real)
    (fun _ _ h _ _ => h) (r.doc.links.map (fun l => l.id)) r.doc d1 a1 h1 hwf
  have hwf1 : d1.wfCore := docext_wfCore r.doc d1 W1.1 hwf
  have W2 := lod_pass_if_spec sv env "visual" (fun l => l.visual)
    (fun _ _ _ h _ => h) (r.doc.links.map (fun l => l.id)) d1 d2 a2 h2 hwf1
  have hwf2 : d2.wfCore := docext_wfCore d1 d2 W2.1 hwf1
  have W3 := lod_pass_if_spec sc env "collision" (fun l => l.collision)
    (fun _ _ _ _ h => h) (r.doc.links.map (fun l => l.id)) d2 d3 a3 h3 hwf2
  have hwf3 : d3.wfCore := docext_wfCore d2 d3 W3.1 hwf2
  have hrd : r'.doc = ((r.doc.links.flatMap (fun x => x.group)).filter
      (fun x => !((a1 ++ a2 ++ a3).contains x))).foldl
      (fun acc x => acc.removeObject x) d3 := by
    rw [hr']
  have hwf' : r'.doc.wfCore := by
    rw [hrd]
    exact removeFold_wfCore _ d3 hwf3
  have hsr' : r'.showReal = some sr := by
    rw [hr']
    exact hsr
  have hsv' : r'.showVisual = some sv := by
    rw [hr']
    exact hsv
  have hsc' : r'.showCollision = some sc := by
    rw [hr']
    exact hsc
  have hdedR' : ∀ lx ∈ r'.doc.links, ∀ oid g₁ g₂, g₁ ∈ lx.group → g₂ ∈ lx.group →
      r'.doc.linksTo g₁ oid = true → r'.doc.linksTo g₂ oid = true → g₁ = g₂ :=
    dedup_after_reset env r r' sr sv sc hsr hsv hsc hwf hded hok
  have hnotrm : ∀ g ∈ a1 ++ a2 ++ a3,
      g ∉ (r.doc.links.flatMap (fun x => x.group)).filter
        (fun x => !((a1 ++ a2 ++ a3).contains x)) := by
    intro g hg hmem
    simp only [List.mem_filter] at hmem
    have h2 := hmem.2
    simp only [Bool.not_eq_true'] at h2
    rw [mem_contains_true hg] at h2
    cases h2
  have hsurvlink : ∀ g ∈ a1 ++ a2 ++ a3, ∀ oid,
      r'.doc.linksTo g oid = d3.linksTo g oid := by
    intro g hg oid
    have hc : r'.doc.findProxy g = d3.findProxy g := by
      rw [hrd, removeFold_findProxy, if_neg (hnotrm g hg)]
    exact linksTo_congr r'.doc d3 g oid hc
  have hchain : ∀ lx ∈ r'.doc.links, ∃ (l3 l2 l1 l0 : RosLink),
      l3 ∈ d3.links ∧ lx.id = l3.id ∧
      lx.group = l3.group.filter (fun g =>
        !(((r.doc.links.flatMap (fun x => x.group)).filter
          (fun x => !((a1 ++ a2 ++ a3).contains x))).contains g)) ∧
      lx.real = l3.real ∧ lx.visual = l3.visual ∧ lx.collision = l3.collision ∧
      d3.getLink lx.id = some l3 ∧ d2.getLink lx.id = some l2 ∧
      d1.getLink lx.id = some l1 ∧ r.doc.getLink lx.id = some l0 ∧
      LinkExt r.doc.nextId d1.nextId l0 l1 ∧
      LinkExt d1.nextId d2.nextId l1 l2 ∧
      LinkExt d2.nextId d3.nextId l2 l3 := by
    intro lx hlx
    rw [hrd, removeFold_links] at hlx
    obtain ⟨l3, hl3, heq⟩ := List.mem_map.mp hlx
    have hid : lx.id = l3.id := by
      rw [← heq]
    have hgr : lx.group = l3.group.filter (fun g =>
        !(((r.doc.links.flatMap (fun x => x.group)).filter
          (fun x => !((a1 ++ a2 ++ a3).contains x))).contains g)) := by
      rw [← heq]
    have hre : lx.real = l3.real := by
      rw [← heq]
    have hvi : lx.visual = l3.visual := by
      rw [← heq]
    have hco : lx.collision = l3.collision := by
      rw [← heq]
    have hget3 : d3.getLink lx.id = some l3 := by
      rw [hid]
      exact mem_getLink_self d3 hwf3.2.1 l3 hl3
    obtain ⟨l2, hget2, hx23⟩ := docext_getLink_bwd d2 d3 W3.1 lx.id l3 hget3
    obtain ⟨l1, hget1, hx12⟩ := docext_getLink_bwd d1 d2 W2.1 lx.id l2 hget2
    obtain ⟨l0, hget0, hx01⟩ := docext_getLink_bwd r.doc d1 W1.1 lx.id l1 hget1
    exact ⟨l3, l2, l1, l0, hl3, hid, hgr, hre, hvi, hco, hget3, hget2, hget1, hget0,
      hx01, hx12, hx23⟩
  have hfwd : ∀ l3 ∈ d3.links, ∃ lx ∈ r'.doc.links,
      lx.id = l3.id ∧
      lx.group = l3.group.filter (fun g =>
        !(((r.doc.links.flatMap (fun x => x.group)).filter
          (fun x => !((a1 ++ a2 ++ a3).contains x))).contains g)) ∧
      lx.real = l3.real ∧ lx.visual = l3.visual ∧ lx.collision = l3.collision := by
    intro l3 hl3
    rw [hrd, removeFold_links]
    exact ⟨_, List.mem_map_of_mem _ hl3, rfl, rfl, rfl, rfl, rfl⟩
  have hmem_allIds : ∀ lx ∈ r'.doc.links, ∀ g ∈ lx.group, g ∈ a1 ++ a2 ++ a3 := by
    intro lx hlx g hg
    obtain ⟨l3, l2, l1, l0, hl3, hid, hgr, hre, hvi, hco, hget3, hget2, hget1, hget0,
      hx01, hx12, hx23⟩ := hchain lx hlx
    rw [hgr] at hg
    simp only [List.mem_filter] at hg
    have hg3 : g ∈ l3.group := hg.1
    have hgnotrm := not_contains_not_mem hg.2
    by_cases h0 : g ∈ l0.group
    · have hcur : g ∈ r.doc.links.flatMap (fun x => x.group) := by
        rw [List.mem_flatMap]
        exact ⟨l0, (getLink_mem r.doc lx.id l0 hget0).1, h0⟩
      by_contra hna
      exact hgnotrm (List.mem_filter.mpr ⟨hcur, not_mem_not_contains hna⟩)
    · by_cases hm1 : g ∈ l1.group
      · exact List.mem_append_left _ (List.mem_append_left _
          (ext_in_ids_guarded sr r.doc (r.doc.links.map (fun x => x.id))
            (fun x => x.real) d1 a1 W1 lx.id l0 l1 hget0 hget1 g hm1 h0))
      · by_cases hm2 : g ∈ l2.group
        · exact List.mem_append_left _ (List.mem_append_right _
            (ext_in_ids_guarded sv d1 (r.doc.links.map (fun x => x.id))
              (fun x => x.visual) d2 a2 W2 lx.id l1 l2 hget1 hget2 g hm2 hm1))
        · exact List.mem_append_right _
            (ext_in_ids_guarded sc d2 (r.doc.links.map (fun x => x.id))
              (fun x => x.collision) d3 a3 W3 lx.id l2 l3 hget2 hget3 g hg3 hm2)
  have hsat_real : sr = true → ∀ lid ∈ r'.doc.links.map (fun x => x.id),
      ∀ lx, r'.doc.getLink lid = some lx → ∀ o ∈ lx.real,
      ∃ g, existing_link r'.doc lx o = some g := by
    intro hsrT lid hlid lx hget' o ho
    have hlx : lx ∈ r'.doc.links := (getLink_mem r'.doc lid lx hget').1
    obtain ⟨l3, l2, l1, l0, hl3, hid, hgr, hre, hvi, hco, hget3, hget2, hget1, hget0,
      hx01, hx12, hx23⟩ := hchain lx hlx
    have P1 := W1.2.1 hsrT
    have hre30 : l3.real = l0.real :=
      hx23.2.2.2.1.trans (hx12.2.2.2.1.trans hx01.2.2.2.1)
    have ho0 : o ∈ l0.real := by
      rw [← hre30, ← hre]
      exact ho
    have hl0mem : l0 ∈ r.doc.links := (getLink_mem r.doc lx.id l0 hget0).1
    have hlid0 : lx.id ∈ r.doc.links.map (fun x => x.id) := by
      have hm : l0.id ∈ r.doc.links.map (fun x => x.id) :=
        List.mem_map_of_mem (fun x => x.id) hl0mem
      rwa [(getLink_mem r.doc lx.id l0 hget0).2] at hm
    obtain ⟨gid, hgid, ly, hgety, hgidy, hlky⟩ := P1.covered lx.id hlid0 l0 hget0 o ho0
    have hyl : ly = l1 := Option.some.inj (hgety.symm.trans hget1)
    subst hyl
    have hgid2 : gid ∈ l2.group := linkext_group_sub _ _ _ _ hx12 gid hgidy
    have hgid3 : gid ∈ l3.group := linkext_group_sub _ _ _ _ hx23 gid hgid2
    have hga : gid ∈ a1 ++ a2 ++ a3 :=
      List.mem_append_left _ (List.mem_append_left _ hgid)
    have hgmem : gid ∈ lx.group := by
      rw [hgr]
      exact List.mem_filter.mpr ⟨hgid3, not_mem_not_contains (hnotrm gid hga)⟩
    have hlk3 : d3.linksTo gid o.id = true :=
      docext_linksTo_some d1 d3 (docext_trans d1 d2 d3 W2.1 W3.1) gid o.id hlky
    have hlkr : r'.doc.linksTo gid o.id = true := by
      rw [hsurvlink gid hga o.id]
      exact hlk3
    exact existing_link_some_of_linksTo r'.doc o lx.group gid hgmem hlkr
  have hsat_visual : sv = true → ∀ lid ∈ r'.doc.links.map (fun x => x.id),
      ∀ lx, r'.doc.getLink lid = some lx → ∀ o ∈ lx.visual,
      ∃ g, existing_link r'.doc lx o = some g := by
    intro hsvT lid hlid lx hget' o ho
    have hlx : lx ∈ r'.doc.links := (getLink_mem r'.doc lid lx hget').1
    obtain ⟨l3, l2, l1, l0, hl3, hid, hgr, hre, hvi, hco, hget3, hget2, hget1, hget0,
      hx01, hx12, hx23⟩ := hchain lx hlx
    have P2 := W2.2.1 hsvT
    have hvi31 : l3.visual = l1.visual := hx23.2.2.2.2.1.trans hx12.2.2.2.2.1
    have ho1 : o ∈ l1.visual := by
      rw [← hvi31, ← hvi]
      exact ho
    have hl0mem : l0 ∈ r.doc.links := (getLink_mem r.doc lx.id l0 hget0).1
    have hlid0 : lx.id ∈ r.doc.links.map (fun x => x.id) := by
      have hm : l0.id ∈ r.doc.links.map (fun x => x.id) :=
        List.mem_map_of_mem (fun x => x.id) hl0mem
      rwa [(getLink_mem r.doc lx.id l0 hget0).2] at hm
    obtain ⟨gid, hgid, ly, hgety, hgidy, hlky⟩ := P2.covered lx.id hlid0 l1 hget1 o ho1
    have hyl : ly = l2 := Option.some.inj (hgety.symm.trans hget2)
    subst hyl
    have hgid3 : gid ∈ l3.group := linkext_group_sub _ _ _ _ hx23 gid hgidy
    have hga : gid ∈ a1 ++ a2 ++ a3 :=
      List.mem_append_left _ (List.mem_append_right _ hgid)
    have hgmem : gid ∈ lx.group := by
      rw [hgr]
      exact List.mem_filter.mpr ⟨hgid3, not_mem_not_contains (hnotrm gid hga)⟩
    have hlk3 : d3.linksTo gid o.id = true :=
      docext_linksTo_some d2 d3 W3.1 gid o.id hlky
    have hlkr : r'.doc.linksTo gid o.id = true := by
      rw [hsurvlink gid hga o.id]
      exact hlk3
    exact existing_link_some_of_linksTo r'.doc o lx.group gid hgmem hlkr
  have hsat_collision : sc = true → ∀ lid ∈ r'.doc.links.map (fun x => x.id),
      ∀ lx, r'.doc.getLink lid = some lx → ∀ o ∈ lx.collision,
      ∃ g, existing_link r'.doc lx o = some g := by
    intro hscT lid hlid lx hget' o ho
    have hlx : lx ∈ r'.doc.links := (getLink_mem r'.doc lid lx hget').1
    obtain ⟨l3, l2, l1, l0, hl3, hid, hgr, hre, hvi, hco, hget3, hget2, hget1, hget0,
      hx01, hx12, hx23⟩ := hchain lx hlx
    have P3 := W3.2.1 hscT
    have hco32 : l3.collision = l2.collision := hx23.2.2.2.2.2.1
    have ho2 : o ∈ l2.collision := by
      rw [← hco32, ← hco]
      exact ho
    have hl0mem : l0 ∈ r.doc.links := (getLink_mem r.doc lx.id l0 hget0).1
    have hlid0 : lx.id ∈ r.doc.links.map (fun x => x.id) := by
      have hm : l0.id ∈ r.doc.links.map (fun x => x.id) :=
        List.mem_map_of_mem (fun x => x.id) hl0mem
      rwa [(getLink_mem r.doc lx.id l0 hget0).2] at hm
    obtain ⟨gid, hgid, ly, hgety, hgidy, hlky⟩ := P3.covered lx.id hlid0 l2 hget2 o ho2
    have hyl : ly = l3 := Option.some.inj (hgety.symm.trans hget3)
    subst hyl
    have hga : gid ∈ a1 ++ a2 ++ a3 := List.mem_append_right _ hgid
    have hgmem : gid ∈ lx.group := by
      rw [hgr]
      exact List.mem_filter.mpr ⟨hgidy, not_mem_not_contains (hnotrm gid hga)⟩
    have hlkr : r'.doc.linksTo gid o.id = true := by
      rw [hsurvlink gid hga o.id]
      exact hlky
    exact existing_link_some_of_linksTo r'.doc o lx.group gid hgmem hlkr
  have hp1 : ∃ ids, lod_pass_if sr env r'.doc (r'.doc.links.map (fun x => x.id))
      (fun x => x.real) "real" = .ok (r'.doc, ids) ∧
      (sr = true → ∀ lid ∈ r'.doc.links.map (fun x => x.id), ∀ lx,
        r'.doc.getLink lid = some lx → ∀ o ∈ lx.real, ∀ g,
        existing_link r'.doc lx o = some g → g ∈ ids) := by
    cases sr with
    | false =>
      refine ⟨[], rfl, ?_⟩
      intro h
      cases h
    | true =>
      obtain ⟨ids, hok', hchar'⟩ := pass_all_found env "real" (fun x => x.real)
        (r'.doc.links.map (fun x => x.id)) r'.doc hwf'.2.1 (hsat_real rfl)
      refine ⟨ids, ?_, fun _ => hchar'⟩
      simp only [lod_pass_if, if_true]
      exact hok'
  have hp2 : ∃ ids, lod_pass_if sv env r'.doc (r'.doc.links.map (fun x => x.id))
      (fun x => x.visual) "visual" = .ok (r'.doc, ids) ∧
      (sv = true → ∀ lid ∈ r'.doc.links.map (fun x => x.id), ∀ lx,
        r'.doc.getLink lid = some lx → ∀ o ∈ lx.visual, ∀ g,
        existing_link r'.doc lx o = some g → g ∈ ids) := by
    cases sv with
    | false =>
      refine ⟨[], rfl, ?_⟩
      intro h
      cases h
    | true =>
      obtain ⟨ids, hok', hchar'⟩ := pass_all_found env "visual" (fun x => x.visual)
        (r'.doc.links.map (fun x => x.id)) r'.doc hwf'.2.1 (hsat_visual rfl)
      refine ⟨ids, ?_, fun _ => hchar'⟩
      simp only [lod_pass_if, if_true]
      exact hok'
  have hp3 : ∃ ids, lod_pass_if sc env r'.doc (r'.doc.links.map (fun x => x.id))
      (fun x => x.collision) "collision" = .ok (r'.doc, ids) ∧
      (sc = true → ∀ lid ∈ r'.doc.links.map (fun x => x.id), ∀ lx,
        r'.doc.getLink lid = some lx → ∀ o ∈ lx.collision, ∀ g,
        existing_link r'.doc lx o = some g → g ∈ ids) := by
    cases sc with
    | false =>
      refine ⟨[], rfl, ?_⟩
      intro h
      cases h
    | true =>
      obtain ⟨ids, hok', hchar'⟩ := pass_all_found env "collision" (fun x => x.collision)
        (r'.doc.links.map (fun x => x.id)) r'.doc hwf'.2.1 (hsat_collision rfl)
      refine ⟨ids, ?_, fun _ => hchar'⟩
      simp only [lod_pass_if, if_true]
      exact hok'
  obtain ⟨b1, hpass1, hchar1⟩ := hp1
  obtain ⟨b2, hpass2, hchar2⟩ := hp2
  obtain ⟨b3, hpass3, hchar3⟩ := hp3
  have hBsub : ∀ pid ∈ r'.doc.links.flatMap (fun x => x.group),
      pid ∈ b1 ++ b2 ++ b3 := by
    intro pid hpid
    rw [List.mem_flatMap] at hpid
    obtain ⟨lx, hlx, hpg⟩ := hpid
    have hga : pid ∈ a1 ++ a2 ++ a3 := hmem_allIds lx hlx pid hpg
    rcases List.mem_append.mp hga with hga' | hA3
    · rcases List.mem_append.mp hga' with hA1 | hA2
      · cases sr with
        | false =>
          obtain ⟨-, ha⟩ := W1.2.2 rfl
          rw [ha] at hA1
          cases hA1
        | true =>
          have P1 := W1.2.1 rfl
          obtain ⟨lid, hlidm, l₀, l₁, hgl0, hgl1, hpg1, o, ho, hlk1⟩ := P1.ids_char pid hA1
          obtain ⟨l₂, hgl2, hx12f⟩ := docext_getLink_fwd d1 d2 W2.1 lid l₁ hgl1
          obtain ⟨l₃, hgl3, hx23f⟩ := docext_getLink_fwd d2 d3 W3.1 lid l₂ hgl2
          have hl3m : l₃ ∈ d3.links := (getLink_mem d3 lid l₃ hgl3).1
          obtain ⟨lz, hlzm, hidz, hgrz, hrez, hviz, hcoz⟩ := hfwd l₃ hl3m
          have hg2f : pid ∈ l₂.group := linkext_group_sub _ _ _ _ hx12f pid hpg1
          have hg3f : pid ∈ l₃.group := linkext_group_sub _ _ _ _ hx23f pid hg2f
          have hpidz : pid ∈ lz.group := by
            rw [hgrz]
            exact List.mem_filter.mpr ⟨hg3f, not_mem_not_contains (hnotrm pid hga)⟩
          obtain ⟨l₁x, hgl1x, hx01f⟩ := docext_getLink_fwd r.doc d1 W1.1 lid l₀ hgl0
          have hx1 : l₁x = l₁ := Option.some.inj (hgl1x.symm.trans hgl1)
          subst hx1
          have hrez0 : lz.real = l₀.real := by
            rw [hrez, hx23f.2.2.2.1, hx12f.2.2.2.1, hx01f.2.2.2.1]
          have hoz : o ∈ lz.real := by
            rw [hrez0]
            exact ho
          have hlk3 : d3.linksTo pid o.id = true :=
            docext_linksTo_some d1 d3 (docext_trans d1 d2 d3 W2.1 W3.1) pid o.id hlk1
          have hlkr : r'.doc.linksTo pid o.id = true := by
            rw [hsurvlink pid hga o.id]
            exact hlk3
          have hex : existing_link r'.doc lz o = some pid :=
            existing_link_go_unique r'.doc o lz.group pid hpidz hlkr
              (fun g hgm hglk => hdedR' lz hlzm o.id g pid hgm hpidz hglk hlkr)
          have hlidz : lz.id ∈ r'.doc.links.map (fun x => x.id) :=
            List.mem_map_of_mem _ hlzm
          have hgetz : r'.doc.getLink lz.id = some lz :=
            mem_getLink_self r'.doc hwf'.2.1 lz hlzm
          exact List.mem_append_left _ (List.mem_append_left _
            (hchar1 rfl lz.id hlidz lz hgetz o hoz pid hex))
      · cases sv with
        | false =>
          obtain ⟨-, ha⟩ := W2.2.2 rfl
          rw [ha] at hA2
          cases hA2
        | true =>
          have P2 := W2.2.1 rfl
          obtain ⟨lid, hlidm, l₀, l₁, hgl0, hgl1, hpg1, o, ho, hlk1⟩ := P2.ids_char pid hA2
          obtain ⟨l₃, hgl3, hx23f⟩ := docext_getLink_fwd d2 d3 W3.1 lid l₁ hgl1
          have hl3m : l₃ ∈ d3.links := (getLink_mem d3 lid l₃ hgl3).1
          obtain ⟨lz, hlzm, hidz, hgrz, hrez, hviz, hcoz⟩ := hfwd l₃ hl3m
          have hg3f : pid ∈ l₃.group := linkext_group_sub _ _ _ _ hx23f pid hpg1
          have hpidz : pid ∈ lz.group := by
            rw [hgrz]
            exact List.mem_filter.mpr ⟨hg3f, not_mem_not_contains (hnotrm pid hga)⟩
          obtain ⟨l₁x, hgl1x, hx01f⟩ := docext_getLink_fwd d1 d2 W2.1 lid l₀ hgl0
          have hx1 : l₁x = l₁ := Option.some.inj (hgl1x.symm.trans hgl1)
          subst hx1
          have hviz0 : lz.visual = l₀.visual := by
            rw [hviz, hx23f.2.2.2.2.1, hx01f.2.2.2.2.1]
          have hoz : o ∈ lz.visual := by
            rw [hviz0]
            exact ho
          have hlk3 : d3.linksTo pid o.id = true :=
            docext_linksTo_some d2 d3 W3.1 pid o.id hlk1
          have hlkr : r'.doc.linksTo pid o.id = true := by
            rw [hsurvlink pid hga o.id]
            exact hlk3
          have hex : existing_link r'.doc lz o = some pid :=
            existing_link_go_unique r'.doc o lz.group pid hpidz hlkr
              (fun g hgm hglk => hdedR' lz hlzm o.id g pid hgm hpidz hglk hlkr)
          have hlidz : lz.id ∈ r'.doc.links.map (fun x => x.id) :=
            List.mem_map_of_mem _ hlzm
          have hgetz : r'.doc.getLink lz.id = some lz :=
            mem_getLink_self r'.doc hwf'.2.1 lz hlzm
          exact List.mem_append_left _ (List.mem_append_right _
            (hchar2 rfl lz.id hlidz lz hgetz o hoz pid hex))
    · cases sc with
      | false =>
        obtain ⟨-, ha⟩ := W3.2.2 rfl
        rw [ha] at hA3
        cases hA3
      | true =>
        have P3 := W3.2.1 rfl
        obtain ⟨lid, hlidm, l₀, l₁, hgl0, hgl1, hpg1, o, ho, hlk1⟩ := P3.ids_char pid hA3
        have hl3m : l₁ ∈ d3.links := (getLink_mem d3 lid l₁ hgl1).1
        obtain ⟨lz, hlzm, hidz, hgrz, hrez, hviz, hcoz⟩ := hfwd l₁ hl3m
        have hpidz : pid ∈ lz.group := by
          rw [hgrz]
          exact List.mem_filter.mpr ⟨hpg1, not_mem_not_contains (hnotrm pid hga)⟩
        obtain ⟨l₁x, hgl1x, hx01f⟩ := docext_getLink_fwd d2 d3 W3.1 lid l₀ hgl0
        have hx1 : l₁x = l₁ := Option.some.inj (hgl1x.symm.trans hgl1)
        subst hx1
        have hcoz0 : lz.collision = l₀.collision := by
          rw [hcoz, hx01f.2.2.2.2.2.1]
        have hoz : o ∈ lz.collision := by
          rw [hcoz0]
          exact ho
        have hlkr : r'.doc.linksTo pid o.id = true := by
          rw [hsurvlink pid hga o.id]
          exact hlk1
        have hex : existing_link r'.doc lz o = some pid :=
          existing_link_go_unique r'.doc o lz.group pid hpidz hlkr
            (fun g hgm hglk => hdedR' lz hlzm o.id g pid hgm hpidz hglk hlkr)
        have hlidz : lz.id ∈ r'.doc.links.map (fun x => x.id) :=
          List.mem_map_of_mem _ hlzm
        have hgetz : r'.doc.getLink lz.id = some lz :=
          mem_getLink_self r'.doc hwf'.2.1 lz hlzm
        exact List.mem_append_right _ (hchar3 rfl lz.id hlidz lz hgetz o hoz pid hex)
  rw [Robot.reset_group, hsr', hsv', hsc']
  dsimp only
  rw [hpass1]
  dsimp only
  rw [hpass2]
  dsimp only
  rw [hpass3]
  dsimp only
  have hfil : (r'.doc.links.flatMap (fun l => l.group)).filter
      (fun pid => !((b1 ++ b2 ++ b3).contains pid)) = [] := by
    rw [List.filter_eq_nil_iff]
    intro a ha
    rw [mem_contains_true (hBsub a ha)]
    simp
  rw [hfil, List.foldl_nil, ← hsr', ← hsv', ← hsc']

theorem c4_reset_group_idempotent_witness :
    c5_robot.doc.wfCore ∧ c5_robot.doc.dedupGroups ∧
    Robot.reset_group envId c5_robot = .ok c5_robot' ∧
    Robot.reset_group envId c5_robot' = .ok c5_robot' :=
  ⟨by unfold Doc.wfCore; decide, by unfold Doc.dedupGroups; decide, rfl,
   c4_reset_group_idempotent envId c5_robot c5_robot'
     (by unfold Doc.wfCore; decide) (by unfold Doc.dedupGroups; decide) rfl⟩
